import Mathlib

/-!
Verification of the okiro comparative-judging pipeline.

Shallow embedding of:
  * `src/lib/judge.ts`   — the multi-agent judge orchestrator
    (`runMultiAgentJudge`, `parseJsonResponse`, `runAgentCommand`,
    prompt builders, cross-variation file index, synthesis statistics);
  * `src/lib/diff.ts`    — `generateFileDiff`.

Modelling conventions:
  * external effects (process invocation via `execa`, file reads,
    `JSON.parse`, the `diff` library's `createTwoFilesPatch`) are either
    parameters of the embedded functions or modelled explicitly;
  * each external agent call is an entry of a `trace` function from the
    call index (calls are issued strictly sequentially) to the outcome;
  * JS strings are Lean `String`s; JS string ordering (`localeCompare` /
    default array sort, used only on ASCII file paths and variation ids
    here) is modelled by code-point lexicographic order `strLe`;
  * JSON numbers are modelled as integers (all scores in the protocol are
    integers 1..10); the floating-point average `totalScore / count` is
    modelled as the exact unreduced fraction `Frac` (numerator and
    denominator);
  * responses whose extracted JSON parses but does not have the shape the
    code expects are modelled as a run-level error: the JS code would
    instead propagate `undefined` values which fault later in the
    pipeline; no claim below depends on that region of behaviour.
-/

/-! ### String helpers (code-point lexicographic order, substring test) -/

/-- Lexicographic `≤` on character lists by code point. -/
def lexLe : List Char → List Char → Bool
  | [], _ => true
  | _ :: _, [] => false
  | a :: as, b :: bs =>
    if a.toNat < b.toNat then true
    else if a.toNat = b.toNat then lexLe as bs
    else false

/-- Lexicographic `≤` on strings: models JS `localeCompare`/default sort
on the ASCII identifiers used by the judge. -/
def strLe (a b : String) : Bool := lexLe a.data b.data

def lexLe_total : ∀ as bs : List Char, lexLe as bs = true ∨ lexLe bs as = true := by
  intro as
  induction as with
  | nil => intro bs; left; rfl
  | cons a as ih =>
    intro bs
    cases bs with
    | nil => right; rfl
    | cons b bs =>
      simp only [lexLe]
      rcases Nat.lt_trichotomy a.toNat b.toNat with h | h | h
      · left; simp [h]
      · rcases ih bs with h' | h'
        · left; simp [h, h']
        · right; simp [h.symm, h']
      · right; simp [h, Nat.ne_of_lt h]

def lexLe_trans : ∀ as bs cs : List Char,
    lexLe as bs = true → lexLe bs cs = true → lexLe as cs = true := by
  intro as
  induction as with
  | nil => intro bs cs _ _; rfl
  | cons a as ih =>
    intro bs cs hab hbc
    cases bs with
    | nil => simp [lexLe] at hab
    | cons b bs =>
      cases cs with
      | nil => simp [lexLe] at hbc
      | cons c cs =>
        simp only [lexLe] at hab hbc ⊢
        rcases Nat.lt_trichotomy a.toNat b.toNat with h1 | h1 | h1
        · rcases Nat.lt_trichotomy b.toNat c.toNat with h2 | h2 | h2
          · simp [Nat.lt_trans h1 h2]
          · simp [h2 ▸ h1]
          · simp [h1, Nat.ne_of_lt h1] at hab
            simp [Nat.lt_asymm h2, Nat.ne_of_gt h2] at hbc
        · rcases Nat.lt_trichotomy b.toNat c.toNat with h2 | h2 | h2
          · simp [h1 ▸ h2]
          · have hac : a.toNat = c.toNat := h1.trans h2
            simp [Nat.lt_irrefl, h1] at hab
            simp [Nat.lt_irrefl, h2] at hbc
            simp [hac, Nat.lt_irrefl]
            exact ih bs cs hab hbc
          · simp [Nat.lt_asymm h2, Nat.ne_of_gt h2] at hbc
        · simp [Nat.lt_asymm h1, Nat.ne_of_gt h1] at hab

/-- The path / variation-identifier order used throughout. -/
def strLeP (a b : String) : Prop := strLe a b = true

instance : DecidableRel strLeP := fun a b => inferInstanceAs (Decidable (_ = true))

instance : IsTotal String strLeP := ⟨fun a b => lexLe_total a.data b.data⟩

instance : IsTrans String strLeP :=
  ⟨fun a b c hab hbc => lexLe_trans a.data b.data c.data hab hbc⟩

/-- Is `pat` an initial segment of `l`? -/
def leadsWith : List Char → List Char → Bool
  | [], _ => true
  | _ :: _, [] => false
  | p :: ps, c :: cs => p = c && leadsWith ps cs

/-- Does `l` contain `pat` as a contiguous substring? -/
def hasSub (l pat : List Char) : Bool :=
  match l with
  | [] => leadsWith pat []
  | _ :: rest => leadsWith pat l || hasSub rest pat

/-- JS `String.prototype.includes`. -/
def strHas (s pat : String) : Bool := hasSub s.data pat.data

/-! ### Data model (`src/lib/judge.ts` interfaces) -/

/-- `FileDiff` (judge.ts / diff.ts agree on the shape). `status` is one of
the characters `'M' | 'A' | 'D'` as in the source union type. -/
structure FileDiff where
  filePath : String
  status : Char
  patch : String
  original : String
  modified : String
deriving DecidableEq

/-- `VariationDiffs`. -/
structure VariationDiffs where
  variationId : String
  diffs : List FileDiff
deriving DecidableEq

/-- `FileAnalysis`. `scores` is the JS object `Record<string, number>`,
modelled as its (duplicate-free, insertion-ordered) entry list. -/
structure FileAnalysis where
  filePath : String
  synopsis : String
  scores : List (String × Int)
  winner : String
deriving DecidableEq

/-- Exact value of the JS floating-point quotient `num / den`, kept as an
unreduced pair (all claims compare quotients produced by the same
formula, so pair equality is the right notion). -/
structure Frac where
  num : Int
  den : Nat
deriving DecidableEq

/-- The JS number literal `0` as a `Frac`. -/
def Frac.zero : Frac := ⟨0, 1⟩

/-- `JudgeRanking`. -/
structure JudgeRanking where
  variation : String
  rank : Int
  strengths : List String
  weaknesses : List String
  fileWins : Nat
  avgScore : Frac
deriving DecidableEq

/-- `JudgeResult`. -/
structure JudgeResult where
  winner : String
  rankings : List JudgeRanking
  summary : String
  fileAnalyses : List FileAnalysis
deriving DecidableEq

/-- `JudgeProgress.phase`. -/
inductive Phase where
  | analyzing
  | synthesizing
  | complete
  | error
deriving DecidableEq

/-- `JudgeProgress`. -/
structure JudgeProgress where
  phase : Phase
  currentFile : Option String
  completedFiles : Nat
  totalFiles : Nat
  fileAnalyses : List FileAnalysis
  result : Option JudgeResult
  error : Option String
deriving DecidableEq

/-! ### `src/lib/diff.ts` — `generateFileDiff`

The file system is a parameter `fs : String → Option String` (path to
content); `fs.readFile(p).catch(() => '')` is `(fs p).getD ""`.
`createTwoFilesPatch` from the `diff` npm package is the parameter
`mkPatch` (old name, new name, old content, new content, old header, new
header). -/

/-- `path.join(root, rel)` for the simple relative paths used here. -/
def joinPath (root rel : String) : String := root ++ "/" ++ rel

/-- `generateFileDiff` (diff.ts lines 14-52). JS truthiness: `!content`
is true exactly on the empty string, so an absent file and an empty file
are both "falsy". -/
def generateFileDiff (fs : String → Option String)
    (mkPatch : String → String → String → String → String → String → String)
    (originalPath variationPath relativeFilePath : String) : FileDiff :=
  let origContent := (fs (joinPath originalPath relativeFilePath)).getD ""
  let varContent := (fs (joinPath variationPath relativeFilePath)).getD ""
  let status : Char :=
    if origContent = "" ∧ ¬ varContent = "" then 'A'
    else if ¬ origContent = "" ∧ varContent = "" then 'D'
    else 'M'
  { filePath := relativeFilePath
    status := status
    patch := mkPatch ("a/" ++ relativeFilePath) ("b/" ++ relativeFilePath)
      origContent varContent "" ""
    original := origContent
    modified := varContent }

/-! ### JSON values and `JSON.parse`

`parseJsonResponse` feeds the extracted span to the JS builtin
`JSON.parse`.  We model the builtin by an executable recursive-descent
parser restricted to the JSON fragment the protocol uses: integer
numerals (no fractions/exponents) and the simple string escapes.  JS
objects keep the position of the first occurrence of a duplicate key and
the value of the last; `objUpsert`/`objFromEntries` implement exactly
that (they also model `Object.fromEntries`). -/

inductive Json where
  | null
  | bool (b : Bool)
  | num (n : Int)
  | str (s : String)
  | arr (items : List Json)
  | obj (fields : List (String × Json))

/-- JS object property assignment: replace in place, else append. -/
def objUpsert {α : Type} (l : List (String × α)) (k : String) (v : α) : List (String × α) :=
  if l.any (fun p => p.1 = k) then l.map (fun p => if p.1 = k then (k, v) else p)
  else l ++ [(k, v)]

/-- `Object.fromEntries` / building a JS object from a list of entries. -/
def objFromEntries {α : Type} (l : List (String × α)) : List (String × α) :=
  l.foldl (fun acc kv => objUpsert acc kv.1 kv.2) []

/-- JS object property read. -/
def objGet {α : Type} (l : List (String × α)) (k : String) : Option α :=
  (l.find? (fun p => p.1 = k)).map (fun p => p.2)

def wsChar (c : Char) : Bool := c = ' ' || c = '\n' || c = '\t' || c = '\r'

def skipWs : List Char → List Char
  | [] => []
  | c :: cs => if wsChar c then skipWs cs else c :: cs

/-- Body of a JSON string literal after the opening quote: returns the
decoded characters and the remaining input after the closing quote. -/
def strChars : List Char → Option (List Char × List Char)
  | [] => none
  | '"' :: rest => some ([], rest)
  | '\\' :: e :: rest =>
    (if e = '"' then some '"'
     else if e = '\\' then some '\\'
     else if e = '/' then some '/'
     else if e = 'n' then some '\n'
     else if e = 't' then some '\t'
     else if e = 'r' then some '\r'
     else none).bind (fun c => (strChars rest).map (fun p => (c :: p.1, p.2)))
  | c :: rest => (strChars rest).map (fun p => (c :: p.1, p.2))

def isDigitCh (c : Char) : Bool := 48 ≤ c.toNat && c.toNat ≤ 57

def digitsSpan : List Char → (List Char × List Char)
  | [] => ([], [])
  | c :: cs =>
    if isDigitCh c then
      let p := digitsSpan cs
      (c :: p.1, p.2)
    else ([], c :: cs)

def digitsToNat : List Char → Nat → Nat
  | [], acc => acc
  | c :: cs, acc => digitsToNat cs (acc * 10 + (c.toNat - 48))

/-- Integer numeral (fractions and exponents are outside the modelled
fragment and are rejected). -/
def numLit (cs : List Char) : Option (Nat × List Char) :=
  match digitsSpan cs with
  | ([], _) => none
  | (ds, rest) =>
    match rest with
    | '.' :: _ => none
    | 'e' :: _ => none
    | 'E' :: _ => none
    | _ => some (digitsToNat ds 0, rest)

mutual

def pVal : Nat → List Char → Option (Json × List Char)
  | 0, _ => none
  | fuel+1, cs =>
    match skipWs cs with
    | [] => none
    | c :: rest =>
      if c = '{' then pObj fuel rest
      else if c = '[' then pArr fuel rest
      else if c = '"' then (strChars rest).map (fun p => (Json.str (String.mk p.1), p.2))
      else if c = 't' then
        match rest with
        | 'r' :: 'u' :: 'e' :: rest1 => some (Json.bool true, rest1)
        | _ => none
      else if c = 'f' then
        match rest with
        | 'a' :: 'l' :: 's' :: 'e' :: rest1 => some (Json.bool false, rest1)
        | _ => none
      else if c = 'n' then
        match rest with
        | 'u' :: 'l' :: 'l' :: rest1 => some (Json.null, rest1)
        | _ => none
      else if c = '-' then
        (numLit rest).map (fun p => (Json.num (-(p.1 : Int)), p.2))
      else if isDigitCh c then
        (numLit (c :: rest)).map (fun p => (Json.num (p.1 : Int), p.2))
      else none

def pObj : Nat → List Char → Option (Json × List Char)
  | 0, _ => none
  | fuel+1, cs =>
    match skipWs cs with
    | '}' :: rest => some (Json.obj [], rest)
    | other => pMembers fuel other []

def pMembers : Nat → List Char → List (String × Json) → Option (Json × List Char)
  | 0, _, _ => none
  | fuel+1, cs, acc =>
    match skipWs cs with
    | '"' :: rest =>
      match strChars rest with
      | none => none
      | some (kcs, rest1) =>
        match skipWs rest1 with
        | ':' :: rest2 =>
          match pVal fuel rest2 with
          | none => none
          | some (v, rest3) =>
            match skipWs rest3 with
            | ',' :: rest4 => pMembers fuel rest4 (acc ++ [(String.mk kcs, v)])
            | '}' :: rest4 => some (Json.obj (objFromEntries (acc ++ [(String.mk kcs, v)])), rest4)
            | _ => none
        | _ => none
    | _ => none

def pArr : Nat → List Char → Option (Json × List Char)
  | 0, _ => none
  | fuel+1, cs =>
    match skipWs cs with
    | ']' :: rest => some (Json.arr [], rest)
    | other => pItems fuel other []

def pItems : Nat → List Char → List Json → Option (Json × List Char)
  | 0, _, _ => none
  | fuel+1, cs, acc =>
    match pVal fuel cs with
    | none => none
    | some (v, rest) =>
      match skipWs rest with
      | ',' :: rest1 => pItems fuel rest1 (acc ++ [v])
      | ']' :: rest1 => some (Json.arr (acc ++ [v]), rest1)
      | _ => none

end

/-- The JS builtin `JSON.parse` on the modelled fragment: parse one value
and require only trailing whitespace after it. -/
def jsonParse (s : String) : Option Json :=
  match pVal (3 * s.data.length + 3) s.data with
  | some (v, rest) => if skipWs rest = [] then some v else none
  | none => none

/-! ### `parseJsonResponse` (judge.ts lines 243-249)

The source matches the regex `/\[[\s\S]*\]|\{[\s\S]*\}/` against the
response.  Regex semantics: the match starts at the leftmost position
holding `[` (with some `]` later) or `{` (with some `}` later), trying
the array alternative first, and the greedy `[\s\S]*` extends the match
to the **last** closer of the same kind in the rest of the text. -/

/-- Index of the last occurrence of `c` in `l`. -/
def lastIdx (c : Char) : List Char → Option Nat
  | [] => none
  | a :: rest =>
    match lastIdx c rest with
    | some j => some (j + 1)
    | none => if a = c then some 0 else none

def jsonMatchL : List Char → Option (List Char)
  | [] => none
  | a :: rest =>
    if a = '[' then
      match lastIdx ']' rest with
      | some j => some (a :: rest.take (j+1))
      | none => jsonMatchL rest
    else if a = '{' then
      match lastIdx '}' rest with
      | some j => some (a :: rest.take (j+1))
      | none => jsonMatchL rest
    else jsonMatchL rest

def jsonMatch (s : String) : Option String := (jsonMatchL s.data).map String.mk

/-- `parseJsonResponse` (JS `JSON.parse` failures raise `SyntaxError`;
the message is modelled as the fixed text "JSON parse failed"). -/
def parseJsonResponse (response : String) : Except String Json :=
  match jsonMatch response with
  | none => .error "No JSON found in response"
  | some m =>
    match jsonParse m with
    | some v => .ok v
    | none => .error "JSON parse failed"

/-! ### `runAgentCommand` (judge.ts lines 200-241)

The process launcher `execa` is the parameter `exec`; an invocation
either yields stdout or fails with an `ExecError` (process errors and
the 180 s timeout both surface here as failures).  JS
`error.message?.includes('model')` is the substring test on the message;
`error.exitCode === 1` is an equality test with the exit code 1. -/

inductive AgentCLI where
  | claude
  | opencode
  | codex
deriving DecidableEq

structure ModelConfig where
  fast : String
  synthesis : String
deriving DecidableEq

def MODEL_CONFIGS : AgentCLI → ModelConfig
  | .claude => ⟨"claude-3-5-haiku-latest", "claude-sonnet-4-20250514"⟩
  | .opencode => ⟨"anthropic/claude-3-5-haiku-latest", "anthropic/claude-sonnet-4-20250514"⟩
  | .codex => ⟨"claude-3-5-haiku-latest", "claude-sonnet-4-20250514"⟩

structure ExecError where
  message : String
  exitCode : Int
deriving DecidableEq

/-- The argument vector built for each CLI (the `switch` at lines 207-217). -/
def agentArgs (cli : AgentCLI) (model : String) : List String :=
  match cli with
  | .claude => ["-p", "-", "--print", "--model", model]
  | .opencode => ["run", "-m", model]
  | .codex => ["exec", "-", "-m", model]

/-- The fallback filter (lines 227-231): drop `--model`/`-m` and any
argument immediately following one of them. -/
def stripModelArgs (args : List String) : List String :=
  (args.enum.filter (fun p =>
    ¬ (p.2 = "--model" ∨ p.2 = "-m") ∧
    ¬ (p.1 > 0 ∧ (args.getD (p.1 - 1) "" = "--model" ∨ args.getD (p.1 - 1) "" = "-m")))).map
    (fun p => p.2)

def runAgentCommand (exec : List String → Except ExecError String)
    (cli : AgentCLI) (model : String) : Except ExecError String :=
  let args := agentArgs cli model
  match exec args with
  | .ok stdout => .ok stdout
  | .error e =>
    if strHas e.message "model" = true ∨ e.exitCode = 1 then
      exec (stripModelArgs args)
    else .error e

/-! ### Cross-variation file index (judge.ts lines 261-287)

`fileMap` is a JS `Map` (keys in first-insertion order, no duplicate
keys); modelled by an association list with the same insertion
discipline.  `entries.sort((a, b) => a.variationId.localeCompare(b, ...))`
and `Array.from(fileMap.keys()).sort()` are stable sorts by the string
order `strLe`; `List.insertionSort` is stable, so it computes the same
list. -/

/-- One element of `Array<{variationId, diff: FileDiff | null}>`. -/
structure VariationEntry where
  variationId : String
  diff : Option FileDiff
deriving DecidableEq

abbrev FileMap := List (String × List VariationEntry)

/-- `fileMap.get(k)!.push(e)` with `set` on a missing key. -/
def mapUpsert (m : FileMap) (k : String) (e : VariationEntry) : FileMap :=
  if m.any (fun p => p.1 = k) then m.map (fun p => if p.1 = k then (p.1, p.2 ++ [e]) else p)
  else m ++ [(k, [e])]

/-- The accumulation loop (lines 266-273). -/
def buildFileMap (vds : List VariationDiffs) : FileMap :=
  vds.foldl
    (fun m vd => vd.diffs.foldl
      (fun m2 d => mapUpsert m2 d.filePath ⟨vd.variationId, some d⟩) m)
    []

/-- The gap-filling pass (lines 275-281): `presentVariations` is computed
before the pushes, so each missing variation is appended. -/
def fillEntries (variations : List String) (es : List VariationEntry) : List VariationEntry :=
  es ++ (variations.filter (fun v => ¬ es.any (fun e => e.variationId = v))).map
    (fun v => ⟨v, none⟩)

/-- The per-file entry order. -/
def entryLe (a b : VariationEntry) : Prop := strLeP a.variationId b.variationId

instance : DecidableRel entryLe := fun a b => inferInstanceAs (Decidable (_ = true))

instance : IsTotal VariationEntry entryLe :=
  ⟨fun a b => lexLe_total a.variationId.data b.variationId.data⟩

instance : IsTrans VariationEntry entryLe :=
  ⟨fun a b c hab hbc => lexLe_trans a.variationId.data b.variationId.data c.variationId.data hab hbc⟩

/-- `entries.sort(...)` (line 282). -/
def sortEntries (es : List VariationEntry) : List VariationEntry :=
  List.insertionSort entryLe es

/-- The finished cross-variation index: filled and sorted per file. -/
def crossIndex (vds : List VariationDiffs) : FileMap :=
  (buildFileMap vds).map
    (fun p => (p.1, sortEntries (fillEntries (vds.map VariationDiffs.variationId) p.2)))

/-- `Array.from(fileMap.keys()).sort()` (line 285). -/
def allFilesOf (vds : List VariationDiffs) : List String :=
  List.insertionSort strLeP ((buildFileMap vds).map (fun p => p.1))

/-- `fileMap.get(filePath)!` on the finished index. -/
def entriesFor (vds : List VariationDiffs) (p : String) : List VariationEntry :=
  (objGet (crossIndex vds) p).getD []

/-! ### Prompt builders (judge.ts lines 70-198) -/

/-- `diff.status === 'A' ? 'Added' : diff.status === 'D' ? 'Deleted' : 'Modified'`. -/
def statusWord (s : Char) : String :=
  if s = 'A' then "Added" else if s = 'D' then "Deleted" else "Modified"

/-- One `### variation` section of the single-file prompt (lines 74-81);
the patch is embedded whole. -/
def fileDiffSection (e : VariationEntry) : String :=
  match e.diff with
  | none => "### " ++ e.variationId ++ "\nNo changes to this file."
  | some d =>
    "### " ++ e.variationId ++ "\nStatus: " ++ statusWord d.status ++
      "\n\n```diff\n" ++ d.patch ++ "\n```"

def fileAnalysisTail : String :=
  "\n\nRESPOND WITH ONLY THIS JSON FORMAT:\n\x7b\n  \"synopsis\": \"Which is worthy and why (2-3 sentences)\",\n  \"scores\": \x7b \"var-1\": 8, \"var-2\": 6 \x7d,\n  \"winner\": \"var-1\"\n\x7d\n\nScore 1-10. One must prevail. Silence (no changes) = 5."

/-- `buildFileAnalysisPrompt` (lines 70-97). -/
def buildFileAnalysisPrompt (filePath : String) (variationDiffs : List VariationEntry) : String :=
  "Examine the offerings. Judge them.\n\nFile: " ++ filePath ++ "\n\n" ++
    String.intercalate "\n\n" (variationDiffs.map fileDiffSection) ++ fileAnalysisTail

/-- The 1500-character patch bound of the batch prompt (line 111).
JS `.length`/`.slice` count UTF-16 units; the diffs here are ASCII, where
both agree with character counts. -/
def truncPatch (p : String) : String :=
  if p.length > 1500 then String.mk (p.data.take 1500) ++ "\n... (truncated)" else p

/-- One `variationId [Status]:` part of a batch file section (lines 107-114). -/
def batchDiffPart (e : VariationEntry) : String :=
  match e.diff with
  | none => "  " ++ e.variationId ++ ": (no changes)"
  | some d =>
    "  " ++ e.variationId ++ " [" ++ statusWord d.status ++ "]:\n```diff\n" ++
      (if d.patch.length > 1500 then String.mk (d.patch.data.take 1500) ++ "\n... (truncated)"
       else d.patch) ++ "\n```"

/-- One `## filePath` section (lines 105-117). -/
def batchFileSection (f : String × List VariationEntry) : String :=
  "## " ++ f.1 ++ "\n" ++ String.intercalate "\n" (f.2.map batchDiffPart)

def batchAnalysisTail : String :=
  "\n\nRESPOND WITH ONLY THIS JSON ARRAY:\n[\n  \x7b\n    \"filePath\": \"path/to/file.ts\",\n    \"synopsis\": \"Which is worthy and why (2-3 sentences)\",\n    \"scores\": \x7b \"var-1\": 8, \"var-2\": 6 \x7d,\n    \"winner\": \"var-1\"\n  \x7d\n]\n\nScore 1-10. One must prevail per file. Silence (no changes) = 5."

/-- `buildBatchAnalysisPrompt` (lines 99-138). -/
def buildBatchAnalysisPrompt (files : List (String × List VariationEntry)) : String :=
  "Examine the offerings. Judge them.\n\nFiles: " ++
    String.intercalate ", " (files.map (fun f => f.1)) ++ "\n\n" ++
    String.intercalate "\n\n---\n\n" (files.map batchFileSection) ++ batchAnalysisTail

/-! ### Synthesis statistics (judge.ts lines 144-159 and 380-395)

The JS builds a `stats` object keyed by the input variations and
accumulates `totalScore`, `fileWins` and a count in one pass over the
analyses, skipping score keys and winners that are not tracked
(`if (stats[varId])`, `if (stats[analysis.winner])`).  Each tracked
variation's accumulated fields are exactly the following per-variation
folds; untracked keys are never consulted. -/

def scoreSum (analyses : List FileAnalysis) (v : String) : Int :=
  (analyses.map (fun a => ((a.scores.filter (fun kv => kv.1 = v)).map (fun kv => kv.2)).sum)).sum

def scoreCnt (analyses : List FileAnalysis) (v : String) : Nat :=
  (analyses.map (fun a => (a.scores.filter (fun kv => kv.1 = v)).length)).sum

def winCnt (analyses : List FileAnalysis) (v : String) : Nat :=
  (analyses.filter (fun a => a.winner = v)).length

/-- Approximates JS `(total / count).toFixed(1)` for the nonnegative
averages that occur (exact float formatting is not modelled; no claim
depends on the synthesis prompt text). -/
def showTenths (total : Int) (count : Nat) : String :=
  let t : Nat := (total * 10).toNat / count
  toString (t / 10) ++ "." ++ toString (t % 10)

def synthesisTail : String :=
  "\n\nOne shall be chosen. The rest found wanting.\n\nRESPOND WITH ONLY THIS JSON FORMAT:\n\x7b\n  \"winner\": \"var-N\",\n  \"rankings\": [\n    \x7b\n      \"variation\": \"var-N\",\n      \"rank\": 1,\n      \"strengths\": [\"what made it worthy\"],\n      \"weaknesses\": [\"where it faltered\"]\n    \x7d\n  ],\n  \"summary\": \"Why this one rises above (2-3 sentences)\"\n\x7d"

/-- `buildSynthesisPrompt` (lines 140-198). -/
def buildSynthesisPrompt (fileAnalyses : List FileAnalysis) (variations : List String) : String :=
  let statsSummary := String.intercalate "\n" (variations.map (fun v =>
    let avg := if scoreCnt fileAnalyses v > 0 then
        showTenths (scoreSum fileAnalyses v) (scoreCnt fileAnalyses v)
      else "0"
    "- " ++ v ++ ": avg score " ++ avg ++ "/10, won " ++ toString (winCnt fileAnalyses v) ++
      "/" ++ toString fileAnalyses.length ++ " files"))
  let analysisSummary := String.intercalate "\n" (fileAnalyses.map (fun a =>
    "- " ++ a.filePath ++ ": Winner=" ++ a.winner ++ " | " ++ a.synopsis))
  "The offerings have been weighed. Now pass judgment.\n\n" ++
    toString variations.length ++
    " variations sought to prove their worth. Each file was judged.\n\n## The Scores\n" ++
    statsSummary ++ "\n\n## File by File\n" ++ analysisSummary ++ synthesisTail

/-! ### Batching (judge.ts lines 251, 304-307) -/

def BATCH_SIZE : Nat := 5

/-- Structural-recursion worker for the slicing loop (the fuel is the
list length, which always suffices). -/
def chunkGo : Nat → List String → List (List String)
  | 0, _ => []
  | _, [] => []
  | fuel+1, a :: l => ((a :: l).take BATCH_SIZE) :: chunkGo fuel ((a :: l).drop BATCH_SIZE)

/-- `for (let i = 0; i < allFiles.length; i += BATCH_SIZE)
      batches.push(allFiles.slice(i, i + BATCH_SIZE))`. -/
def chunk5 (l : List String) : List (List String) := chunkGo l.length l

/-! ### The orchestrator (judge.ts lines 253-420)

External agent calls are issued strictly sequentially; the environment is
a `trace` function from the call index, the prompt and the model to the
outcome.  A `CallResult.fail` covers a process error, a nonzero exit
after the internal retry of `runAgentCommand`, and the 180 s timeout. -/

inductive CallResult where
  | ok (response : String)
  | fail (message : String)

/-- `emitProgress` (lines 289-302): `completedFiles` is the current
length of the accumulated analyses and `result` is never passed. -/
def mkProgress (phase : Phase) (currentFile : Option String)
    (analyses : List FileAnalysis) (totalFiles : Nat) (err : Option String) : JudgeProgress :=
  { phase := phase
    currentFile := currentFile
    completedFiles := analyses.length
    totalFiles := totalFiles
    fileAnalyses := analyses
    result := none
    error := err }

/-- The neutral fallback analysis for one file of a failed batch
(lines 349-356).  `variations[0]` is `undefined` on an empty variation
list; modelled as `""` (theorems assume a nonempty input). -/
def fallbackAnalysis (variations : List String) (filePath : String) : FileAnalysis :=
  { filePath := filePath
    synopsis := "Analysis failed - treating as neutral"
    scores := objFromEntries (variations.map (fun v => (v, (5 : Int))))
    winner := variations.headD "" }

/-! Decoders for the response shapes the TS type assertions expect. -/

def decodeStr : Json → Option String
  | .str s => some s
  | _ => none

def decodeInt : Json → Option Int
  | .num n => some n
  | _ => none

def decodeStrList : Json → Option (List String)
  | .arr items => items.mapM decodeStr
  | _ => none

def decodeScores : Json → Option (List (String × Int))
  | .obj fields => fields.mapM (fun kv => (decodeInt kv.2).map (fun n => (kv.1, n)))
  | _ => none

/-- The `{synopsis, scores, winner}` shape of a single-file response
(lines 326-330). -/
def decodeAnalysisFields (j : Json) : Option (String × List (String × Int) × String) :=
  match j with
  | .obj fields => do
      let syn ← (objGet fields "synopsis").bind decodeStr
      let sc ← (objGet fields "scores").bind decodeScores
      let win ← (objGet fields "winner").bind decodeStr
      pure (syn, sc, win)
  | _ => none

/-- One element of a batch response array (`FileAnalysis` shape). -/
def decodeFileAnalysis (j : Json) : Option FileAnalysis :=
  match j with
  | .obj fields => do
      let fp ← (objGet fields "filePath").bind decodeStr
      let syn ← (objGet fields "synopsis").bind decodeStr
      let sc ← (objGet fields "scores").bind decodeScores
      let win ← (objGet fields "winner").bind decodeStr
      pure ⟨fp, syn, sc, win⟩
  | _ => none

/-- Outcome of one batch body (the `try` at lines 317-346). -/
inductive BatchOutcome where
  | ok (results : List FileAnalysis)
  | fallback
  | fatal (message : String)

/-- The batch body.  A failed call or an unextractable/unparsable
response throws inside the `try` and is caught (`fallback`).  In the
single-file arm a parsed `null` also throws on property access inside the
`try` (`fallback`); in the multi-file arm spreading a non-array throws
inside the `try` (`fallback`).  Parsed values of any other non-conforming
shape are pushed undecoded by the JS and fault later; modelled as
`fatal` (see the header note; no claim depends on that region). -/
def batchOutcome (r : CallResult) (batch : List String) : BatchOutcome :=
  match r with
  | .fail _ => .fallback
  | .ok response =>
    match parseJsonResponse response with
    | .error _ => .fallback
    | .ok j =>
      if batch.length = 1 then
        match j with
        | Json.null => .fallback
        | _ =>
          match decodeAnalysisFields j with
          | some (syn, sc, win) => .ok [⟨batch.headD "", syn, sc, win⟩]
          | none => .fatal "file analysis response shape mismatch"
      else
        match j with
        | Json.arr items =>
          match items.mapM decodeFileAnalysis with
          | some rs => .ok rs
          | none => .fatal "batch analysis response shape mismatch"
        | _ => .fallback

/-- The prompt issued for a batch (lines 320-342). -/
def batchPrompt (vds : List VariationDiffs) (batch : List String) : String :=
  if batch.length = 1 then
    buildFileAnalysisPrompt (batch.headD "") (entriesFor vds (batch.headD ""))
  else
    buildBatchAnalysisPrompt (batch.map (fun f => (f, entriesFor vds f)))

/-- The per-batch loop (lines 309-358): one `analyzing` event before the
call (`currentFile = batch[0]`), and on success a second one after the
push (`currentFile = batch[batch.length - 1]`); the `catch` arm pushes
the fallback analyses and emits nothing. -/
def analyzeLoop (trace : Nat → String → String → CallResult) (fastModel : String)
    (vds : List VariationDiffs) (variations : List String) (totalFiles : Nat) :
    Nat → List FileAnalysis → List (List String) →
    List JudgeProgress × Except String (List FileAnalysis)
  | _, acc, [] => ([], .ok acc)
  | i, acc, b :: bs =>
    let ev1 := mkProgress .analyzing b.head? acc totalFiles none
    match batchOutcome (trace i (batchPrompt vds b) fastModel) b with
    | .fatal m => ([ev1], .error m)
    | .fallback =>
      let acc2 := acc ++ b.map (fallbackAnalysis variations)
      let r := analyzeLoop trace fastModel vds variations totalFiles (i+1) acc2 bs
      (ev1 :: r.1, r.2)
    | .ok rs =>
      let acc2 := acc ++ rs
      let ev2 := mkProgress .analyzing b.getLast? acc2 totalFiles none
      let r := analyzeLoop trace fastModel vds variations totalFiles (i+1) acc2 bs
      (ev1 :: ev2 :: r.1, r.2)

/-- The parsed synthesis ranking entry `{variation, rank, strengths,
weaknesses}`.  The JS spread `...r` keeps any further fields of the
response entry only until the explicit `fileWins`/`avgScore` overwrite
them, so figures the response invents (for example `fileWins: 99`) never
reach the result. -/
structure SynthRanking where
  variation : String
  rank : Int
  strengths : List String
  weaknesses : List String
deriving DecidableEq

structure SynthResult where
  winner : String
  rankings : List SynthRanking
  summary : String
deriving DecidableEq

def decodeSynthRanking (j : Json) : Option SynthRanking :=
  match j with
  | .obj fields => do
      let v ← (objGet fields "variation").bind decodeStr
      let rk ← (objGet fields "rank").bind decodeInt
      let st ← (objGet fields "strengths").bind decodeStrList
      let wk ← (objGet fields "weaknesses").bind decodeStrList
      pure ⟨v, rk, st, wk⟩
  | _ => none

def decodeSynthesis (j : Json) : Option SynthResult :=
  match j with
  | .obj fields => do
      let win ← (objGet fields "winner").bind decodeStr
      let rks ← match objGet fields "rankings" with
        | some (Json.arr items) => items.mapM decodeSynthRanking
        | _ => none
      let sum ← (objGet fields "summary").bind decodeStr
      pure ⟨win, rks, sum⟩
  | _ => none

/-- The result assembly (lines 380-408): `fileWins` and `avgScore` come
from the locally recomputed statistics; `stats[r.variation]?.fileWins ??
0` is 0 for an untracked variation, and `stats[...]?.count ? total/count
: 0` is the number 0 when the count is 0 or the variation untracked. -/
def mkResult (variations : List String) (analyses : List FileAnalysis)
    (sr : SynthResult) : JudgeResult :=
  { winner := sr.winner
    rankings := sr.rankings.map (fun r =>
      { variation := r.variation
        rank := r.rank
        strengths := r.strengths
        weaknesses := r.weaknesses
        fileWins := if r.variation ∈ variations then winCnt analyses r.variation else 0
        avgScore := if r.variation ∈ variations ∧ scoreCnt analyses r.variation ≠ 0 then
            ⟨scoreSum analyses r.variation, scoreCnt analyses r.variation⟩
          else Frac.zero })
    summary := sr.summary
    fileAnalyses := analyses }

/-- `runMultiAgentJudge` (lines 253-420).  Returns the sequence of
progress snapshots delivered to `onProgress` together with the outcome
(`.error` models the promise rejecting; snapshots emitted before a
rejection were already delivered).  On success the source emits
`emitProgress('complete')` (without a result) and then one further
hand-built snapshot carrying the result. -/
def runMultiAgentJudge (cli : AgentCLI) (trace : Nat → String → String → CallResult)
    (variationDiffs : List VariationDiffs) :
    List JudgeProgress × Except String JudgeResult :=
  let models := MODEL_CONFIGS cli
  let variations := variationDiffs.map VariationDiffs.variationId
  let allFiles := allFilesOf variationDiffs
  let totalFiles := allFiles.length
  let batches := chunk5 allFiles
  let loop := analyzeLoop trace models.fast variationDiffs variations totalFiles 0 [] batches
  match loop.2 with
  | .error m => (loop.1, .error m)
  | .ok fileAnalyses =>
    let evSynth := mkProgress .synthesizing none fileAnalyses totalFiles none
    match trace batches.length (buildSynthesisPrompt fileAnalyses variations) models.synthesis with
    | .fail m => (loop.1 ++ [evSynth], .error m)
    | .ok response =>
      match parseJsonResponse response with
      | .error m => (loop.1 ++ [evSynth], .error m)
      | .ok j =>
        match decodeSynthesis j with
        | none => (loop.1 ++ [evSynth], .error "synthesis response shape mismatch")
        | some sr =>
          let result := mkResult variations fileAnalyses sr
          let evC1 := mkProgress .complete none fileAnalyses totalFiles none
          let evC2 : JudgeProgress :=
            { phase := .complete
              currentFile := none
              completedFiles := totalFiles
              totalFiles := totalFiles
              fileAnalyses := fileAnalyses
              result := some result
              error := none }
          (loop.1 ++ [evSynth, evC1, evC2], .ok result)

/-! ### Concrete scenarios used by witnesses and counterexamples -/

/-- An empty file system: both roots lack the file. -/
def fsAbsent : String → Option String := fun _ => none

/-- A trivial stand-in for `createTwoFilesPatch`. -/
def nullPatch : String → String → String → String → String → String → String :=
  fun _ _ _ _ _ _ => ""

/-- An `execa` environment: the model-carrying invocation fails with a
message mentioning "model", the stripped invocation succeeds. -/
def execW : List String → Except ExecError String := fun args =>
  if args = ["-p", "-", "--print", "--model", "mx"] then .error ⟨"bad model name", 2⟩
  else if args = ["-p", "-", "--print"] then .ok "recovered"
  else .error ⟨"unexpected", 0⟩

/-- A patch one character over the 1500-character batch bound. -/
def longPatch : String := String.mk (List.replicate 1501 'x')

def dLong : FileDiff := ⟨"f.ts", 'M', longPatch, "", ""⟩

def dSmall : FileDiff := ⟨"f.ts", 'M', "p", "", ""⟩

/-- Response text holding two balanced objects separated by prose. -/
def mixedResp : String := "\x7b\"a\":1\x7d and \x7b\"b\":2\x7d"

/-- One variation touching one file. -/
def vds1 : List VariationDiffs := [⟨"var-1", [⟨"a.ts", 'M', "p", "", ""⟩]⟩]

/-- A well-formed single-file analysis response. -/
def respSingle : String :=
  "\x7b\"synopsis\":\"s\",\"scores\":\x7b\"var-1\":7\x7d,\"winner\":\"var-1\"\x7d"

/-- A well-formed synthesis response. -/
def respSynth : String :=
  "\x7b\"winner\":\"var-1\",\"rankings\":[\x7b\"variation\":\"var-1\",\"rank\":1,\"strengths\":[],\"weaknesses\":[]\x7d],\"summary\":\"ok\"\x7d"

/-- A synthesis response that additionally claims `fileWins: 99`. -/
def respSynth99 : String :=
  "\x7b\"winner\":\"var-1\",\"rankings\":[\x7b\"variation\":\"var-1\",\"rank\":1,\"strengths\":[],\"weaknesses\":[],\"fileWins\":99\x7d],\"summary\":\"ok\"\x7d"

/-- A synthesis response ranking an unknown variation `ghost`. -/
def respSynthGhost : String :=
  "\x7b\"winner\":\"var-1\",\"rankings\":[\x7b\"variation\":\"ghost\",\"rank\":1,\"strengths\":[],\"weaknesses\":[]\x7d],\"summary\":\"ok\"\x7d"

def traceGood : Nat → String → String → CallResult := fun i _ _ =>
  if i = 0 then .ok respSingle else .ok respSynth

def trace99 : Nat → String → String → CallResult := fun i _ _ =>
  if i = 0 then .ok respSingle else .ok respSynth99

def traceGhost : Nat → String → String → CallResult := fun i _ _ =>
  if i = 0 then .ok respSingle else .ok respSynthGhost

def traceSynthFail : Nat → String → String → CallResult := fun i _ _ =>
  if i = 0 then .ok respSingle else .fail "synthesis exploded"

def traceBatchFail : Nat → String → String → CallResult := fun i _ _ =>
  if i = 0 then .fail "batch exploded" else .ok respSynth

/-- The analysis parsed from `respSingle`. -/
def analysis1 : FileAnalysis := ⟨"a.ts", "s", [("var-1", 7)], "var-1"⟩

/-- The result of the `traceGood` run. -/
def res1 : JudgeResult :=
  { winner := "var-1"
    rankings := [{ variation := "var-1", rank := 1, strengths := [], weaknesses := [],
                   fileWins := 1, avgScore := ⟨7, 1⟩ }]
    summary := "ok"
    fileAnalyses := [analysis1] }

/-- The ranking entry of `res1`. -/
def rank1 : JudgeRanking :=
  { variation := "var-1", rank := 1, strengths := [], weaknesses := [],
    fileWins := 1, avgScore := ⟨7, 1⟩ }

/-- The result of the `traceGhost` run. -/
def resGhost : JudgeResult :=
  { winner := "var-1"
    rankings := [{ variation := "ghost", rank := 1, strengths := [], weaknesses := [],
                   fileWins := 0, avgScore := Frac.zero }]
    summary := "ok"
    fileAnalyses := [analysis1] }

/-- The ranking entry of `resGhost`. -/
def rankGhost : JudgeRanking :=
  { variation := "ghost", rank := 1, strengths := [], weaknesses := [],
    fileWins := 0, avgScore := Frac.zero }

/-- One `(variationId, diff)` accumulation step of the index builder. -/
def upStep (m : FileMap) (pr : String × FileDiff) : FileMap :=
  mapUpsert m pr.2.filePath ⟨pr.1, some pr.2⟩

/-- The `(variationId, diff)` pairs of the input in iteration order. -/
def pairsOf (vds : List VariationDiffs) : List (String × FileDiff) :=
  vds.flatMap (fun vd => vd.diffs.map (fun d => (vd.variationId, d)))

/-- The raw entry list the builder accumulates under path `p`. -/
def collectP (ps : List (String × FileDiff)) (p : String) : List VariationEntry :=
  ps.filterMap (fun pr => if pr.2.filePath = p then some ⟨pr.1, some pr.2⟩ else none)

/-- Duplicated-diff input refuting universal per-file uniqueness. -/
def dDup : FileDiff := ⟨"p.ts", 'M', "x", "", ""⟩

def vdsDup : List VariationDiffs := [⟨"v1", [dDup, dDup]⟩]

/-- The contribution of one batch to the accumulated analyses: the
parsed results on success, one neutral fallback per file of the batch on
a caught failure, and an error in the modelled-as-fatal region. -/
def segOf (r : CallResult) (variations : List String) (b : List String) :
    Except String (List FileAnalysis) :=
  match batchOutcome r b with
  | .ok rs => .ok rs
  | .fallback => .ok (b.map (fallbackAnalysis variations))
  | .fatal m => .error m

/-- The per-batch contributions of a run, indexed by call number. -/
def segmentsFrom (trace : Nat → String → String → CallResult) (fastModel : String)
    (vds : List VariationDiffs) (variations : List String) :
    Nat → List (List String) → Except String (List (List FileAnalysis))
  | _, [] => .ok []
  | i, b :: bs =>
    match segOf (trace i (batchPrompt vds b) fastModel) variations b with
    | .error m => .error m
    | .ok s =>
      match segmentsFrom trace fastModel vds variations (i+1) bs with
      | .error m => .error m
      | .ok rest => .ok (s :: rest)

/-- A file system where only the variation holds the (new) file. -/
def fsAdd : String → Option String := fun p =>
  if p = "varbase/new.txt" then some "hello" else none

/-- The argument vectors with the model selection stripped. -/
def agentArgsNoModel : AgentCLI → List String
  | .claude => ["-p", "-", "--print"]
  | .opencode => ["run"]
  | .codex => ["exec", "-"]

/-! ## Claim theorems -/

/-- C9 (corrected): `generateFileDiff` returns the original and modified
contents (absent files read as empty), a patch produced by the
unified-diff renderer called with empty timestamp header fields, and a
status computed from content emptiness: Added when the original content
is absent-or-empty and the modified content nonempty, Deleted when the
original content is nonempty and the modified content absent-or-empty,
and Modified in every other case — including, against the claim as
stated, the case where the original file is absent but the modified file
is absent or empty too. -/
theorem c9_generateFileDiff_spec (fs : String → Option String)
    (mkPatch : String → String → String → String → String → String → String)
    (originalPath variationPath relativeFilePath : String)
    (o v : String)
    (ho : o = (fs (joinPath originalPath relativeFilePath)).getD "")
    (hv : v = (fs (joinPath variationPath relativeFilePath)).getD "") :
    (generateFileDiff fs mkPatch originalPath variationPath relativeFilePath).filePath
        = relativeFilePath ∧
    (generateFileDiff fs mkPatch originalPath variationPath relativeFilePath).original = o ∧
    (generateFileDiff fs mkPatch originalPath variationPath relativeFilePath).modified = v ∧
    (generateFileDiff fs mkPatch originalPath variationPath relativeFilePath).patch
        = mkPatch ("a/" ++ relativeFilePath) ("b/" ++ relativeFilePath) o v "" "" ∧
    ((generateFileDiff fs mkPatch originalPath variationPath relativeFilePath).status = 'A'
        ↔ (o = "" ∧ v ≠ "")) ∧
    ((generateFileDiff fs mkPatch originalPath variationPath relativeFilePath).status = 'D'
        ↔ (o ≠ "" ∧ v = "")) ∧
    ((generateFileDiff fs mkPatch originalPath variationPath relativeFilePath).status = 'M'
        ↔ ((o = "" ∧ v = "") ∨ (o ≠ "" ∧ v ≠ ""))) := by
  subst ho hv
  by_cases ho : (fs (joinPath originalPath relativeFilePath)).getD "" = "" <;>
    by_cases hv : (fs (joinPath variationPath relativeFilePath)).getD "" = "" <;>
      simp [generateFileDiff, ho, hv]

/-- C9 counterexample: with both files absent the original is absent but
the returned status is Modified, not the Added the claim requires. -/
theorem c9_counterexample :
    fsAbsent (joinPath "orig" "varbase") = none ∧
    (generateFileDiff fsAbsent nullPatch "orig" "varbase" "file.txt").status = 'M' ∧
    ¬ (generateFileDiff fsAbsent nullPatch "orig" "varbase" "file.txt").status = 'A' := by
  exact ⟨rfl, rfl, by decide⟩

/-- C9 witness: a file present only in the variation root is reported as
Added with its content. -/
theorem c9_witness :
    (generateFileDiff fsAdd nullPatch "orig" "varbase" "new.txt").status = 'A' ∧
    (generateFileDiff fsAdd nullPatch "orig" "varbase" "new.txt").modified = "hello" := by
  have h := c9_generateFileDiff_spec fsAdd nullPatch "orig" "varbase" "new.txt" "" "hello"
    (by rfl) (by rfl)
  exact ⟨h.2.2.2.2.1.mpr ⟨rfl, by decide⟩, h.2.2.1⟩

/-- C7: when the evaluation call fails with an error whose message
mentions "model" or with the generic nonzero exit code (1),
`runAgentCommand` retries exactly once with the model-selection
arguments (`--model`/`-m` and their values) stripped from the
invocation; the outcome of that single retry — success or failure — is
what propagates, so a failing retry fails the batch. -/
theorem c7_runAgentCommand_retry (exec : List String → Except ExecError String)
    (cli : AgentCLI) (model : String) (e : ExecError)
    (hfail : exec (agentArgs cli model) = .error e)
    (hcond : strHas e.message "model" = true ∨ e.exitCode = 1) :
    runAgentCommand exec cli model = exec (stripModelArgs (agentArgs cli model)) ∧
    stripModelArgs (agentArgs cli model) = agentArgsNoModel cli := by
  constructor
  · simp only [runAgentCommand, hfail]
    rw [if_pos hcond]
  · cases cli <;> simp [stripModelArgs, agentArgs, agentArgsNoModel, List.enum, List.enumFrom]

/-- C7 witness: a claude invocation whose first call fails mentioning
"model" is retried without `--model mx` and recovers. -/
theorem c7_witness :
    runAgentCommand execW .claude "mx" = execW ["-p", "-", "--print"] ∧
    execW ["-p", "-", "--print"] = .ok "recovered" := by
  have h := c7_runAgentCommand_retry execW .claude "mx" ⟨"bad model name", 2⟩
    (by rfl) (Or.inl (by decide))
  have h2 : stripModelArgs (agentArgs .claude "mx") = ["-p", "-", "--print"] := h.2
  exact ⟨h2 ▸ h.1, by rfl⟩

/-- C8 (amended): in multi-file batch payloads every included diff's
patch is bounded: patches of at most 1500 characters are embedded
verbatim, longer patches are cut to their first 1500 characters with the
"(truncated)" marker appended (total 1516 characters); the batch of
exactly one file instead uses the single-file prompt, which — against
the claim as stated — embeds each patch whole, with no truncation and no
marker. -/
theorem c8_prompt_truncation :
    (∀ p : String, p.length ≤ 1500 → truncPatch p = p) ∧
    (∀ p : String, p.length > 1500 →
        truncPatch p = String.mk (p.data.take 1500) ++ "\n... (truncated)" ∧
        (truncPatch p).length = 1516) ∧
    (∀ e : VariationEntry, ∀ d : FileDiff, e.diff = some d →
        batchDiffPart e = "  " ++ e.variationId ++ " [" ++ statusWord d.status ++
          "]:\n```diff\n" ++ truncPatch d.patch ++ "\n```") ∧
    (∀ filePath v d, buildFileAnalysisPrompt filePath [⟨v, some d⟩] =
        "Examine the offerings. Judge them.\n\nFile: " ++ filePath ++ "\n\n" ++
          ("### " ++ v ++ "\nStatus: " ++ statusWord d.status ++
            "\n\n```diff\n" ++ d.patch ++ "\n```") ++ fileAnalysisTail) := by
  refine ⟨?_, ?_, ?_, ?_⟩
  · intro p hp
    simp [truncPatch, Nat.not_lt.mpr hp]
  · intro p hp
    constructor
    · simp [truncPatch, hp]
    · simp only [truncPatch, if_pos hp]
      have h2 : 1500 ≤ p.data.length := le_of_lt hp
      rw [String.length_append]
      show (List.take 1500 p.data).length + 16 = 1516
      rw [List.length_take, Nat.min_eq_left h2]
  · rintro ⟨vid, _⟩ d rfl
    simp [batchDiffPart, truncPatch]
  · intro filePath v d
    rfl

/-- C8 witness: a short patch is embedded verbatim in a batch section,
and the single-file prompt for a concrete entry embeds the patch whole. -/
theorem c8_witness :
    truncPatch "p" = "p" ∧
    batchDiffPart ⟨"var-1", some dSmall⟩ =
      "  " ++ "var-1" ++ " [" ++ statusWord 'M' ++ "]:\n```diff\n" ++ truncPatch "p" ++ "\n```" := by
  have h1 := c8_prompt_truncation.1 "p" (by decide)
  have h2 := c8_prompt_truncation.2.2.1 ⟨"var-1", some dSmall⟩ dSmall rfl
  exact ⟨h1, h2⟩

set_option maxRecDepth 100000 in
/-- C8 counterexample: a single-file batch with a 1501-character patch
produces a prompt with no "(truncated)" marker at all (and the patch is
embedded whole), refuting the claim for batches of exactly one file. -/
theorem c8_counterexample :
    longPatch.length = 1501 ∧
    strHas (buildFileAnalysisPrompt "f.ts" [⟨"var-1", some dLong⟩]) "(truncated)" = false ∧
    buildFileAnalysisPrompt "f.ts" [⟨"var-1", some dLong⟩] =
      "Examine the offerings. Judge them.\n\nFile: f.ts\n\n" ++
        ("### var-1\nStatus: Modified\n\n```diff\n" ++ longPatch ++ "\n```") ++
        fileAnalysisTail := by
  refine ⟨by decide, by decide, by rfl⟩

/-! Helper lemmas on the regex-match model. -/

theorem lastIdx_eq_none (c : Char) (l : List Char) (h : ∀ x ∈ l, x ≠ c) :
    lastIdx c l = none := by
  induction l with
  | nil => rfl
  | cons a rest ih =>
    simp only [lastIdx]
    rw [ih (fun x hx => h x (List.mem_cons_of_mem a hx))]
    simp [h a (List.mem_cons_self a rest)]

theorem lastIdx_append_none (c : Char) (l1 l2 : List Char) (h2 : lastIdx c l2 = none) :
    lastIdx c (l1 ++ l2) = lastIdx c l1 := by
  induction l1 with
  | nil => simpa using h2
  | cons a rest ih => simp only [List.cons_append, lastIdx, List.append_eq, ih]

theorem lastIdx_getLast (c : Char) (l : List Char) (h : l.getLast? = some c) :
    lastIdx c l = some (l.length - 1) := by
  induction l with
  | nil => simp at h
  | cons a rest ih =>
    cases rest with
    | nil =>
      simp only [List.getLast?_singleton, Option.some.injEq] at h
      subst h
      simp [lastIdx]
    | cons b rest2 =>
      have h' : (b :: rest2).getLast? = some c := by
        rw [List.getLast?_cons_cons] at h
        exact h
      unfold lastIdx
      rw [ih h']
      simp only [List.length_cons]
      congr 1

theorem jsonMatchL_none (l : List Char) (h : ∀ c ∈ l, c ≠ '[' ∧ c ≠ '{') :
    jsonMatchL l = none := by
  induction l with
  | nil => rfl
  | cons a rest ih =>
    have ha := h a (List.mem_cons_self a rest)
    simp only [jsonMatchL, if_neg ha.1, if_neg ha.2]
    exact ih (fun c hc => h c (List.mem_cons_of_mem a hc))

theorem jsonMatchL_skip (pre l : List Char) (h : ∀ c ∈ pre, c ≠ '[' ∧ c ≠ '{') :
    jsonMatchL (pre ++ l) = jsonMatchL l := by
  induction pre with
  | nil => rfl
  | cons a rest ih =>
    have ha := h a (List.mem_cons_self a rest)
    simp only [List.cons_append, jsonMatchL, if_neg ha.1, if_neg ha.2]
    exact ih (fun c hc => h c (List.mem_cons_of_mem a hc))

theorem jsonMatchL_braceSpan (mid post : List Char) (hmid : mid.getLast? = some '}')
    (hpost : ∀ c ∈ post, c ≠ '}') :
    jsonMatchL ('{' :: (mid ++ post)) = some ('{' :: mid) := by
  have hne : mid ≠ [] := by
    intro e
    subst e
    simp at hmid
  show (if ('{' : Char) = '[' then
      match lastIdx ']' (mid ++ post) with
      | some j => some ('{' :: (mid ++ post).take (j+1))
      | none => jsonMatchL (mid ++ post)
    else if ('{' : Char) = '{' then
      match lastIdx '}' (mid ++ post) with
      | some j => some ('{' :: (mid ++ post).take (j+1))
      | none => jsonMatchL (mid ++ post)
    else jsonMatchL (mid ++ post)) = some ('{' :: mid)
  rw [if_neg (by decide : ¬('{' : Char) = '['), if_pos rfl]
  rw [lastIdx_append_none '}' mid post (lastIdx_eq_none _ _ hpost), lastIdx_getLast _ _ hmid]
  have hlen : mid.length - 1 + 1 = mid.length := by
    have := List.length_pos.mpr hne
    omega
  show some ('{' :: (mid ++ post).take (mid.length - 1 + 1)) = some ('{' :: mid)
  rw [hlen, List.take_left]

/-- C6 (amended): `parseJsonResponse` extracts the span running from the
first `[` or `{` that has a later closer of the same kind up to the
**last** such closer in the text (the greedy regex), and parses it with
`JSON.parse`; in particular an object wrapped in prose or markdown code
fences (which contain no braces) is recovered, and the call fails when
the text holds no bracket or brace at all, or when the extracted span
does not parse. -/
theorem c6_parseJsonResponse_extraction :
    (∀ (pre body post : String) (mid : List Char) (v : Json),
        (∀ c ∈ pre.data, c ≠ '[' ∧ c ≠ '{') →
        body.data = '{' :: mid →
        mid.getLast? = some '}' →
        (∀ c ∈ post.data, c ≠ '}') →
        jsonParse body = some v →
        jsonMatch (pre ++ body ++ post) = some body ∧
        parseJsonResponse (pre ++ body ++ post) = .ok v) ∧
    (∀ s : String, (∀ c ∈ s.data, c ≠ '[' ∧ c ≠ '{') →
        parseJsonResponse s = .error "No JSON found in response") := by
  constructor
  · intro pre body post mid v hpre hbody hmid hpost hparse
    have hdata : (pre ++ body ++ post).data = pre.data ++ ('{' :: (mid ++ post.data)) := by
      show (pre.data ++ body.data) ++ post.data = _
      rw [hbody, List.append_assoc]
      rfl
    have hmatch : jsonMatch (pre ++ body ++ post) = some body := by
      unfold jsonMatch
      rw [hdata, jsonMatchL_skip _ _ hpre, jsonMatchL_braceSpan mid post.data hmid hpost]
      show some (String.mk ('{' :: mid)) = some body
      rw [← hbody]
    refine ⟨hmatch, ?_⟩
    unfold parseJsonResponse
    rw [hmatch]
    show (match jsonParse body with
      | some w => Except.ok w
      | none => Except.error "JSON parse failed") = Except.ok v
    rw [hparse]
  · intro s hs
    unfold parseJsonResponse jsonMatch
    rw [jsonMatchL_none s.data hs]
    rfl

/-- C6 witness: a JSON object wrapped in prose and a markdown code fence
is recovered. -/
theorem c6_witness :
    jsonMatch ("Sure! ```json\n" ++ "\x7b\"x\": 1\x7d" ++ "\n```") = some "\x7b\"x\": 1\x7d" ∧
    parseJsonResponse ("Sure! ```json\n" ++ "\x7b\"x\": 1\x7d" ++ "\n```")
      = .ok (Json.obj [("x", Json.num 1)]) := by
  have h := c6_parseJsonResponse_extraction.1 "Sure! ```json\n" "\x7b\"x\": 1\x7d" "\n```"
    ("\"x\": 1\x7d".data) (Json.obj [("x", Json.num 1)])
    (by decide) (by rfl) (by rfl) (by decide) (by rfl)
  exact h

/-- C6 counterexample: for a response holding two balanced objects the
first balanced span `{"a":1}` parses, but the code extracts from the
first `{` to the last `}` and then fails to parse — so the claim's
"first balanced span" reading is refuted. -/
theorem c6_counterexample :
    jsonMatch mixedResp = some mixedResp ∧
    jsonParse "\x7b\"a\":1\x7d" = some (Json.obj [("a", Json.num 1)]) ∧
    parseJsonResponse mixedResp = .error "JSON parse failed" := by
  exact ⟨rfl, rfl, rfl⟩

/-- Successful runs produce exactly the locally assembled result: an
inversion helper shared by the aggregation claims. -/
theorem runJudge_ok_structure (cli : AgentCLI) (trace : Nat → String → String → CallResult)
    (vds : List VariationDiffs) (res : JudgeResult)
    (hok : (runMultiAgentJudge cli trace vds).2 = .ok res) :
    ∃ analyses sr, res = mkResult (vds.map VariationDiffs.variationId) analyses sr ∧
      res.fileAnalyses = analyses := by
  unfold runMultiAgentJudge at hok
  dsimp only at hok
  split at hok
  · simp at hok
  · split at hok
    · simp at hok
    · split at hok
      · simp at hok
      · split at hok
        · simp at hok
        · obtain rfl : mkResult _ _ _ = res := Except.ok.inj hok
          exact ⟨_, _, rfl, rfl⟩

/-- Each assembled ranking entry carries the locally recomputed
statistics of its variation. -/
theorem mkResult_ranking_mem (variations : List String) (analyses : List FileAnalysis)
    (sr : SynthResult) (r : JudgeRanking)
    (hr : r ∈ (mkResult variations analyses sr).rankings) :
    r.fileWins = (if r.variation ∈ variations then winCnt analyses r.variation else 0) ∧
    r.avgScore = (if r.variation ∈ variations ∧ scoreCnt analyses r.variation ≠ 0 then
        (⟨scoreSum analyses r.variation, scoreCnt analyses r.variation⟩ : Frac)
      else Frac.zero) := by
  simp only [mkResult, List.mem_map] at hr
  obtain ⟨pr, _, rfl⟩ := hr
  exact ⟨rfl, rfl⟩

/-- C3: every ranking entry of a completed run carries `fileWins` and
`avgScore` recomputed locally from the accumulated `FileAnalysis`
records — the per-variation win count and the mean score (total over
count, 0 when no scores) — regardless of any figures the synthesis
response supplied. -/
theorem c3_rankings_recomputed (cli : AgentCLI) (trace : Nat → String → String → CallResult)
    (vds : List VariationDiffs) (res : JudgeResult) (r : JudgeRanking)
    (hok : (runMultiAgentJudge cli trace vds).2 = .ok res)
    (hr : r ∈ res.rankings)
    (hv : r.variation ∈ vds.map VariationDiffs.variationId) :
    r.fileWins = winCnt res.fileAnalyses r.variation ∧
    r.avgScore = (if scoreCnt res.fileAnalyses r.variation ≠ 0 then
        (⟨scoreSum res.fileAnalyses r.variation, scoreCnt res.fileAnalyses r.variation⟩ : Frac)
      else Frac.zero) := by
  obtain ⟨analyses, sr, rfl, -⟩ := runJudge_ok_structure cli trace vds res hok
  have h := mkResult_ranking_mem _ _ _ r hr
  have hfa : (mkResult (List.map VariationDiffs.variationId vds) analyses sr).fileAnalyses
      = analyses := rfl
  rw [hfa]
  constructor
  · rw [h.1, if_pos hv]
  · rw [h.2]
    by_cases hc : scoreCnt analyses r.variation ≠ 0
    · rw [if_pos ⟨hv, hc⟩, if_pos hc]
    · rw [if_neg (fun hx => hc hx.2), if_neg hc]

set_option maxRecDepth 100000 in
/-- C3 witness: the synthesis response of the run claims `fileWins: 99`
for `var-1`, yet the final ranking shows the locally counted value 1. -/
theorem c3_witness :
    (runMultiAgentJudge .claude trace99 vds1).2 = .ok res1 ∧
    rank1 ∈ res1.rankings ∧
    rank1.fileWins = winCnt res1.fileAnalyses rank1.variation ∧
    rank1.fileWins = 1 := by
  have h := c3_rankings_recomputed .claude trace99 vds1 res1 rank1 (by rfl) (by decide) (by decide)
  exact ⟨by rfl, by decide, h.1, by decide⟩

/-- C10: when the parsed synthesis response ranks a variation identifier
that is not among the input variation identifiers, the run still
completes and that entry's statistics fall back to `fileWins = 0` and
`avgScore = 0` instead of faulting on the missing statistics key. -/
theorem c10_unknown_variation (cli : AgentCLI) (trace : Nat → String → String → CallResult)
    (vds : List VariationDiffs) (res : JudgeResult) (r : JudgeRanking)
    (hok : (runMultiAgentJudge cli trace vds).2 = .ok res)
    (hr : r ∈ res.rankings)
    (hv : r.variation ∉ vds.map VariationDiffs.variationId) :
    r.fileWins = 0 ∧ r.avgScore = Frac.zero := by
  obtain ⟨analyses, sr, rfl, -⟩ := runJudge_ok_structure cli trace vds res hok
  have h := mkResult_ranking_mem _ _ _ r hr
  exact ⟨by rw [h.1, if_neg hv], by rw [h.2, if_neg (fun hx => hv hx.1)]⟩

set_option maxRecDepth 100000 in
/-- C10 witness: a run whose synthesis ranks the unknown variation
`ghost` completes normally with `fileWins = 0` and `avgScore = 0`. -/
theorem c10_witness :
    (runMultiAgentJudge .claude traceGhost vds1).2 = .ok resGhost ∧
    rankGhost ∈ resGhost.rankings ∧
    rankGhost.fileWins = 0 ∧ rankGhost.avgScore = Frac.zero := by
  have h := c10_unknown_variation .claude traceGhost vds1 resGhost rankGhost
    (by rfl) (by decide) (by decide)
  exact ⟨by rfl, by decide, h.1, h.2⟩

/-- C4: once the analysis loop has completed, a synthesis call that
fails — or one whose response holds no extractable JSON — makes
`runMultiAgentJudge` end in an error carrying that failure: no
`JudgeResult` is produced and no neutral fallback replaces the
synthesis, unlike per-file batch failures. -/
theorem c4_synthesis_failure_propagates (cli : AgentCLI)
    (trace : Nat → String → String → CallResult)
    (vds : List VariationDiffs) (analyses : List FileAnalysis)
    (hloop : (analyzeLoop trace (MODEL_CONFIGS cli).fast vds (vds.map VariationDiffs.variationId)
        (allFilesOf vds).length 0 [] (chunk5 (allFilesOf vds))).2 = .ok analyses) :
    (∀ m, trace (chunk5 (allFilesOf vds)).length
          (buildSynthesisPrompt analyses (vds.map VariationDiffs.variationId))
          (MODEL_CONFIGS cli).synthesis = .fail m →
        (runMultiAgentJudge cli trace vds).2 = .error m) ∧
    (∀ response, trace (chunk5 (allFilesOf vds)).length
          (buildSynthesisPrompt analyses (vds.map VariationDiffs.variationId))
          (MODEL_CONFIGS cli).synthesis = .ok response →
        jsonMatch response = none →
        (runMultiAgentJudge cli trace vds).2 = .error "No JSON found in response") := by
  constructor
  · intro m hm
    unfold runMultiAgentJudge
    dsimp only
    rw [hloop]
    dsimp only
    rw [hm]
  · intro response hresp hnone
    unfold runMultiAgentJudge
    dsimp only
    rw [hloop]
    dsimp only
    rw [hresp]
    dsimp only
    unfold parseJsonResponse
    rw [hnone]

set_option maxRecDepth 100000 in
/-- C4 witness: a run whose synthesis call fails rejects with exactly
that message. -/
theorem c4_witness :
    (runMultiAgentJudge .claude traceSynthFail vds1).2 = .error "synthesis exploded" := by
  exact (c4_synthesis_failure_propagates .claude traceSynthFail vds1 [analysis1] (by rfl)).1
    "synthesis exploded" (by rfl)

/-- The analysis loop accumulates exactly the concatenation of the
per-batch segments. -/
theorem analyzeLoop_eq_segments (trace : Nat → String → String → CallResult)
    (fastModel : String) (vds : List VariationDiffs) (variations : List String)
    (totalFiles : Nat) :
    ∀ (bs : List (List String)) (i : Nat) (acc : List FileAnalysis),
    (analyzeLoop trace fastModel vds variations totalFiles i acc bs).2 =
      (segmentsFrom trace fastModel vds variations i bs).map (fun ss => acc ++ ss.flatten) := by
  intro bs
  induction bs with
  | nil => intro i acc; simp [analyzeLoop, segmentsFrom, Except.map]
  | cons b bs ih =>
    intro i acc
    simp only [analyzeLoop, segmentsFrom, segOf]
    cases hseg : batchOutcome (trace i (batchPrompt vds b) fastModel) b with
    | fatal m => simp [Except.map]
    | fallback =>
      simp only []
      rw [ih]
      cases hrest : segmentsFrom trace fastModel vds variations (i+1) bs with
      | error m => simp [Except.map]
      | ok rest => simp [Except.map, List.append_assoc]
    | ok rs =>
      simp only []
      rw [ih]
      cases hrest : segmentsFrom trace fastModel vds variations (i+1) bs with
      | error m => simp [Except.map]
      | ok rest => simp [Except.map, List.append_assoc]

/-- Pointwise reading of a successful segment computation: each index is
the outcome of that batch's own call alone. -/
theorem segmentsFrom_ok_get (trace : Nat → String → String → CallResult)
    (fastModel : String) (vds : List VariationDiffs) (variations : List String) :
    ∀ (bs : List (List String)) (i : Nat) (ss : List (List FileAnalysis)),
    segmentsFrom trace fastModel vds variations i bs = .ok ss →
    ss.length = bs.length ∧
    ∀ j b s, bs[j]? = some b → ss[j]? = some s →
      segOf (trace (i + j) (batchPrompt vds b) fastModel) variations b = .ok s := by
  intro bs
  induction bs with
  | nil =>
    intro i ss h
    simp only [segmentsFrom] at h
    cases h
    exact ⟨rfl, by intro j b s hb hs; simp at hb⟩
  | cons b0 bs ih =>
    intro i ss h
    simp only [segmentsFrom] at h
    cases hseg : segOf (trace i (batchPrompt vds b0) fastModel) variations b0 with
    | error m => rw [hseg] at h; cases h
    | ok s0 =>
      rw [hseg] at h
      cases hrest : segmentsFrom trace fastModel vds variations (i+1) bs with
      | error m => rw [hrest] at h; cases h
      | ok rest =>
        rw [hrest] at h
        cases h
        obtain ⟨hlen, hget⟩ := ih (i+1) rest hrest
        refine ⟨by simp [hlen], ?_⟩
        intro j b s hb hs
        cases j with
        | zero =>
          simp only [List.getElem?_cons_zero, Option.some.injEq] at hb hs
          subst hb
          subst hs
          simpa using hseg
        | succ j' =>
          simp only [List.getElem?_cons_succ] at hb hs
          have := hget j' b s hb hs
          have harith : i + 1 + j' = i + (j' + 1) := by omega
          rw [harith] at this
          exact this

/-! Batching and key-uniqueness lemmas. -/

theorem chunkGo_fuel : ∀ (f1 f2 : Nat) (l : List String),
    l.length ≤ f1 → l.length ≤ f2 → chunkGo f1 l = chunkGo f2 l := by
  intro f1
  induction f1 with
  | zero =>
    intro f2 l h1 _
    have : l = [] := List.length_eq_zero.mp (Nat.le_zero.mp h1)
    subst this
    cases f2 <;> rfl
  | succ g1 ih =>
    intro f2 l h1 h2
    cases l with
    | nil => cases f2 <;> rfl
    | cons a l' =>
      cases f2 with
      | zero => simp at h2
      | succ g2 =>
        simp only [chunkGo]
        congr 1
        apply ih
        · simp only [List.length_drop, List.length_cons, BATCH_SIZE] at *
          omega
        · simp only [List.length_drop, List.length_cons, BATCH_SIZE] at *
          omega

theorem chunk5_cons (l : List String) (h : l ≠ []) :
    chunk5 l = l.take BATCH_SIZE :: chunk5 (l.drop BATCH_SIZE) := by
  cases l with
  | nil => contradiction
  | cons a l' =>
    show chunkGo (a :: l').length (a :: l') = _
    simp only [List.length_cons, chunkGo]
    congr 1
    apply chunkGo_fuel
    · simp only [List.length_drop, List.length_cons, BATCH_SIZE]
      omega
    · exact le_refl _

theorem chunkGo_flatten : ∀ (n : Nat) (l : List String),
    l.length ≤ n → (chunkGo n l).flatten = l := by
  intro n
  induction n with
  | zero =>
    intro l h
    have : l = [] := List.length_eq_zero.mp (Nat.le_zero.mp h)
    subst this
    rfl
  | succ n ih =>
    intro l h
    cases l with
    | nil => rfl
    | cons a l' =>
      simp only [chunkGo, List.flatten_cons]
      rw [ih _ (by simp only [List.length_drop, List.length_cons, BATCH_SIZE] at *; omega)]
      exact List.take_append_drop _ _

theorem chunk5_flatten (l : List String) : (chunk5 l).flatten = l :=
  chunkGo_flatten l.length l (le_refl _)

theorem chunkGo_mem_ne_nil : ∀ (n : Nat) (l : List String) (b : List String),
    b ∈ chunkGo n l → b ≠ [] := by
  intro n
  induction n with
  | zero => intro l b hb; simp [chunkGo] at hb
  | succ n ih =>
    intro l b hb
    cases l with
    | nil => simp [chunkGo] at hb
    | cons a l' =>
      simp only [chunkGo, List.mem_cons] at hb
      rcases hb with hb | hb
      · subst hb
        simp [BATCH_SIZE]
      · exact ih _ b hb

theorem chunk5_mem_ne_nil (l b : List String) (hb : b ∈ chunk5 l) : b ≠ [] :=
  chunkGo_mem_ne_nil l.length l b hb

theorem chunk5_mem_nodup (l b : List String) (hl : l.Nodup) (hb : b ∈ chunk5 l) : b.Nodup := by
  have hf : (chunk5 l).flatten.Nodup := by rw [chunk5_flatten]; exact hl
  exact (List.nodup_flatten.mp hf).1 b hb

theorem keys_mapUpsert (m : FileMap) (k : String) (e : VariationEntry) :
    (mapUpsert m k e).map Prod.fst =
      if m.any (fun p => p.1 = k) then m.map Prod.fst else m.map Prod.fst ++ [k] := by
  unfold mapUpsert
  split
  · simp only [List.map_map]
    apply List.map_congr_left
    intro p _
    by_cases hp : p.1 = k <;> simp [hp]
  · simp

theorem keys_nodup_mapUpsert (m : FileMap) (k : String) (e : VariationEntry)
    (h : (m.map Prod.fst).Nodup) : ((mapUpsert m k e).map Prod.fst).Nodup := by
  rw [keys_mapUpsert]
  split
  · exact h
  · rename_i hany
    have hk : k ∉ m.map Prod.fst := by
      intro hmem
      apply hany
      rw [List.any_eq_true]
      obtain ⟨p, hp, hpk⟩ := List.mem_map.mp hmem
      exact ⟨p, hp, by simp [hpk]⟩
    refine List.Nodup.append h (List.nodup_singleton k) ?_
    intro a ha hb
    rw [List.mem_singleton] at hb
    exact hk (hb ▸ ha)

theorem keys_nodup_inner (v : String) :
    ∀ (ds : List FileDiff) (m : FileMap), (m.map Prod.fst).Nodup →
    ((ds.foldl (fun m2 d => mapUpsert m2 d.filePath ⟨v, some d⟩) m).map Prod.fst).Nodup := by
  intro ds
  induction ds with
  | nil => intro m h; exact h
  | cons d ds ih =>
    intro m h
    exact ih _ (keys_nodup_mapUpsert m d.filePath ⟨v, some d⟩ h)

theorem keys_nodup_buildFileMap (vds : List VariationDiffs) :
    ((buildFileMap vds).map Prod.fst).Nodup := by
  unfold buildFileMap
  have general : ∀ (l : List VariationDiffs) (m : FileMap), (m.map Prod.fst).Nodup →
      ((l.foldl (fun m vd => vd.diffs.foldl
        (fun m2 d => mapUpsert m2 d.filePath ⟨vd.variationId, some d⟩) m) m).map Prod.fst).Nodup := by
    intro l
    induction l with
    | nil => intro m h; exact h
    | cons vd l ih => intro m h; exact ih _ (keys_nodup_inner vd.variationId vd.diffs m h)
  exact general vds [] (by simp)

theorem allFilesOf_nodup (vds : List VariationDiffs) : (allFilesOf vds).Nodup := by
  unfold allFilesOf
  exact (List.perm_insertionSort strLeP _).nodup_iff.mpr (keys_nodup_buildFileMap vds)

theorem allFilesOf_sorted (vds : List VariationDiffs) :
    (allFilesOf vds).Sorted strLeP :=
  List.sorted_insertionSort strLeP _

/-! The neutral fallback's score object. -/

theorem objUpsert_vals {α : Type} (c : α) (l : List (String × α)) (k : String) (v : α)
    (hl : ∀ kv ∈ l, kv.2 = c) (hv : v = c) :
    ∀ kv ∈ objUpsert l k v, kv.2 = c := by
  unfold objUpsert
  split
  · intro kv hkv
    obtain ⟨p, hp, hpe⟩ := List.mem_map.mp hkv
    by_cases hpk : p.1 = k
    · rw [if_pos hpk] at hpe
      rw [← hpe]
      exact hv
    · rw [if_neg hpk] at hpe
      rw [← hpe]
      exact hl p hp
  · intro kv hkv
    rcases List.mem_append.mp hkv with h | h
    · exact hl kv h
    · rw [List.mem_singleton] at h
      rw [h]
      exact hv

theorem objUpsert_keys {α : Type} (l : List (String × α)) (k k' : String) (v : α)
    (h : k' ∈ l.map Prod.fst ∨ k' = k) :
    k' ∈ (objUpsert l k v).map Prod.fst := by
  unfold objUpsert
  split
  · rename_i hany
    rcases h with h | h
    · obtain ⟨p, hp, hpe⟩ := List.mem_map.mp h
      apply List.mem_map.mpr
      refine ⟨if p.1 = k then (k, v) else p, List.mem_map_of_mem _ hp, ?_⟩
      by_cases hpk : p.1 = k
      · rw [if_pos hpk]
        rw [← hpe, hpk]
      · rw [if_neg hpk]
        exact hpe
    · subst h
      rw [List.any_eq_true] at hany
      obtain ⟨p, hp, hpk⟩ := hany
      simp only [decide_eq_true_eq] at hpk
      apply List.mem_map.mpr
      refine ⟨(k', v), ?_, rfl⟩
      apply List.mem_map.mpr
      exact ⟨p, hp, by rw [if_pos hpk]⟩
  · rcases h with h | h
    · simp only [List.map_append]
      exact List.mem_append_left _ h
    · simp [h]

theorem foldl_objUpsert_const {α : Type} (c : α) :
    ∀ (ps : List (String × α)) (acc : List (String × α)),
    (∀ kv ∈ acc, kv.2 = c) → (∀ kv ∈ ps, kv.2 = c) →
    (∀ kv ∈ ps.foldl (fun a kv => objUpsert a kv.1 kv.2) acc, kv.2 = c) ∧
    (∀ k, k ∈ acc.map Prod.fst ∨ k ∈ ps.map Prod.fst →
       k ∈ (ps.foldl (fun a kv => objUpsert a kv.1 kv.2) acc).map Prod.fst) := by
  intro ps
  induction ps with
  | nil =>
    intro acc hacc _
    refine ⟨hacc, ?_⟩
    intro k hk
    rcases hk with h | h
    · exact h
    · simp at h
  | cons q ps ih =>
    intro acc hacc hps
    have hq : q.2 = c := hps q (List.mem_cons_self q ps)
    have hacc2 : ∀ kv ∈ objUpsert acc q.1 q.2, kv.2 = c := objUpsert_vals c acc q.1 q.2 hacc hq
    have hps2 : ∀ kv ∈ ps, kv.2 = c := fun kv hkv => hps kv (List.mem_cons_of_mem q hkv)
    obtain ⟨hv, hk⟩ := ih (objUpsert acc q.1 q.2) hacc2 hps2
    refine ⟨hv, ?_⟩
    intro k hkk
    apply hk
    rcases hkk with h | h
    · exact Or.inl (objUpsert_keys acc q.1 k q.2 (Or.inl h))
    · rcases List.mem_map.mp h with ⟨p, hp, hpe⟩
      rcases List.mem_cons.mp hp with rfl | hp'
      · exact Or.inl (objUpsert_keys acc p.1 k p.2 (Or.inr hpe.symm))
      · exact Or.inr (List.mem_map.mpr ⟨p, hp', hpe⟩)

theorem objGet_of_const {α : Type} (c : α) :
    ∀ (l : List (String × α)), (∀ kv ∈ l, kv.2 = c) →
    ∀ k, k ∈ l.map Prod.fst → objGet l k = some c := by
  intro l
  induction l with
  | nil => intro _ k hk; simp at hk
  | cons q l ih =>
    intro hvals k hk
    unfold objGet
    rw [List.find?_cons]
    by_cases hq : q.1 = k
    · rw [show (decide (q.1 = k)) = true from by simp [hq]]
      simp [hvals q (List.mem_cons_self q l)]
    · rw [show (decide (q.1 = k)) = false from by simp [hq]]
      have hk' : k ∈ l.map Prod.fst := by
        rcases List.mem_map.mp hk with ⟨p, hp, hpe⟩
        rcases List.mem_cons.mp hp with rfl | hp'
        · exact absurd hpe hq
        · exact List.mem_map.mpr ⟨p, hp', hpe⟩
      exact ih (fun kv hkv => hvals kv (List.mem_cons_of_mem q hkv)) k hk'

/-- Every tracked variation reads 5 in the neutral fallback's scores. -/
theorem fallback_scores_lookup (vars : List String) (v : String) (hv : v ∈ vars) :
    objGet (objFromEntries (vars.map (fun x => (x, (5 : Int))))) v = some 5 := by
  unfold objFromEntries
  have h := foldl_objUpsert_const (5 : Int) (vars.map fun x => (x, (5 : Int))) []
    (by simp) (by intro kv hkv; rcases List.mem_map.mp hkv with ⟨x, _, rfl⟩; rfl)
  apply objGet_of_const _ _ h.1
  apply h.2
  right
  simpa using hv

/-- C1: when the evaluation call for a batch fails, the run is not
aborted: that batch contributes exactly one neutral fallback
`FileAnalysis` per file of the batch (synopsis marked failed/neutral,
every input variation scored 5, winner deterministically the first
variation), and every other batch's contribution is exactly what its own
call alone determines — replacing the failing call leaves all other
segments unchanged. -/
theorem c1_failed_batch_fallback (cli : AgentCLI)
    (trace : Nat → String → String → CallResult)
    (vds : List VariationDiffs) (hvds : vds ≠ [])
    (i : Nat) (msg : String) (b : List String)
    (hb : (chunk5 (allFilesOf vds))[i]? = some b)
    (hfail : trace i (batchPrompt vds b) (MODEL_CONFIGS cli).fast = .fail msg) :
    segOf (trace i (batchPrompt vds b) (MODEL_CONFIGS cli).fast)
        (vds.map VariationDiffs.variationId) b
      = .ok (b.map (fallbackAnalysis (vds.map VariationDiffs.variationId))) ∧
    b.Nodup ∧
    vds.map VariationDiffs.variationId ≠ [] ∧
    (∀ f, (fallbackAnalysis (vds.map VariationDiffs.variationId) f).synopsis
            = "Analysis failed - treating as neutral" ∧
          (fallbackAnalysis (vds.map VariationDiffs.variationId) f).winner
            = (vds.map VariationDiffs.variationId).headD "" ∧
          (∀ v ∈ vds.map VariationDiffs.variationId,
            objGet (fallbackAnalysis (vds.map VariationDiffs.variationId) f).scores v
              = some 5)) ∧
    (∀ analyses,
        (analyzeLoop trace (MODEL_CONFIGS cli).fast vds (vds.map VariationDiffs.variationId)
            (allFilesOf vds).length 0 [] (chunk5 (allFilesOf vds))).2 = .ok analyses →
        ∃ ss, segmentsFrom trace (MODEL_CONFIGS cli).fast vds
              (vds.map VariationDiffs.variationId) 0 (chunk5 (allFilesOf vds)) = .ok ss ∧
          analyses = ss.flatten ∧
          ss[i]? = some (b.map (fallbackAnalysis (vds.map VariationDiffs.variationId))) ∧
          ∀ (trace2 : Nat → String → String → CallResult),
            (∀ j, j ≠ i → ∀ p m, trace2 j p m = trace j p m) →
            ∀ analyses2,
              (analyzeLoop trace2 (MODEL_CONFIGS cli).fast vds
                  (vds.map VariationDiffs.variationId)
                  (allFilesOf vds).length 0 [] (chunk5 (allFilesOf vds))).2 = .ok analyses2 →
              ∃ ss2, segmentsFrom trace2 (MODEL_CONFIGS cli).fast vds
                    (vds.map VariationDiffs.variationId) 0 (chunk5 (allFilesOf vds)) = .ok ss2 ∧
                analyses2 = ss2.flatten ∧ ss2.length = ss.length ∧
                ∀ j, j ≠ i → ss2[j]? = ss[j]?) := by
  have hseg1 : segOf (trace i (batchPrompt vds b) (MODEL_CONFIGS cli).fast)
      (vds.map VariationDiffs.variationId) b
      = .ok (b.map (fallbackAnalysis (vds.map VariationDiffs.variationId))) := by
    rw [hfail]
    rfl
  obtain ⟨hblt, hbeq⟩ := List.getElem?_eq_some_iff.mp hb
  have hbmem : b ∈ chunk5 (allFilesOf vds) := hbeq ▸ List.getElem_mem hblt
  refine ⟨hseg1, chunk5_mem_nodup _ _ (allFilesOf_nodup vds) hbmem, ?_, ?_, ?_⟩
  · cases vds with
    | nil => exact absurd rfl hvds
    | cons vd vds' => simp
  · intro f
    exact ⟨rfl, rfl, fun v hv => fallback_scores_lookup _ v hv⟩
  · intro analyses hrun
    rw [analyzeLoop_eq_segments] at hrun
    cases hss : segmentsFrom trace (MODEL_CONFIGS cli).fast vds
        (vds.map VariationDiffs.variationId) 0 (chunk5 (allFilesOf vds)) with
    | error m => rw [hss] at hrun; cases hrun
    | ok ss =>
      rw [hss] at hrun
      obtain rfl : [] ++ ss.flatten = analyses := Except.ok.inj hrun
      obtain ⟨hlen, hget⟩ := segmentsFrom_ok_get _ _ _ _ _ _ _ hss
      have hsslt : i < ss.length := hlen ▸ hblt
      have hssi : ss[i]? = some ss[i] := List.getElem?_eq_getElem hsslt
      have hseg2 := hget i b ss[i] hb hssi
      rw [Nat.zero_add] at hseg2
      have hssival : ss[i] = b.map (fallbackAnalysis (vds.map VariationDiffs.variationId)) :=
        Except.ok.inj (hseg2.symm.trans hseg1)
      refine ⟨ss, rfl, by simp, by rw [hssi, hssival], ?_⟩
      intro trace2 hagree analyses2 hrun2
      rw [analyzeLoop_eq_segments] at hrun2
      cases hss2 : segmentsFrom trace2 (MODEL_CONFIGS cli).fast vds
          (vds.map VariationDiffs.variationId) 0 (chunk5 (allFilesOf vds)) with
      | error m => rw [hss2] at hrun2; cases hrun2
      | ok ss2 =>
        rw [hss2] at hrun2
        obtain rfl : [] ++ ss2.flatten = analyses2 := Except.ok.inj hrun2
        obtain ⟨hlen2, hget2⟩ := segmentsFrom_ok_get _ _ _ _ _ _ _ hss2
        refine ⟨ss2, rfl, by simp, hlen2.trans hlen.symm, ?_⟩
        intro j hj
        by_cases hjlt : j < (chunk5 (allFilesOf vds)).length
        · have hj1 : ss[j]? = some ss[j] := List.getElem?_eq_getElem (hlen ▸ hjlt)
          have hj2 : ss2[j]? = some ss2[j] := List.getElem?_eq_getElem (hlen2 ▸ hjlt)
          have hbj : (chunk5 (allFilesOf vds))[j]? = some (chunk5 (allFilesOf vds))[j] :=
            List.getElem?_eq_getElem hjlt
          have h1 := hget j _ ss[j] hbj hj1
          have h2 := hget2 j _ ss2[j] hbj hj2
          rw [Nat.zero_add] at h1 h2
          rw [hagree j hj] at h2
          rw [hj1, hj2]
          exact congrArg some (Except.ok.inj (h2.symm.trans h1))
        · rw [List.getElem?_eq_none (by omega : ss.length ≤ j),
            List.getElem?_eq_none (by omega : ss2.length ≤ j)]

set_option maxRecDepth 100000 in
/-- C1 witness: a run whose only batch call fails appends exactly the
neutral fallback analysis (score 5, winner `var-1`) and continues. -/
theorem c1_witness :
    segOf (traceBatchFail 0 (batchPrompt vds1 ["a.ts"]) (MODEL_CONFIGS .claude).fast)
        ["var-1"] ["a.ts"]
      = .ok [fallbackAnalysis ["var-1"] "a.ts"] ∧
    objGet (fallbackAnalysis ["var-1"] "a.ts").scores "var-1" = some 5 ∧
    (analyzeLoop traceBatchFail (MODEL_CONFIGS .claude).fast vds1 ["var-1"]
        (allFilesOf vds1).length 0 [] (chunk5 (allFilesOf vds1))).2
      = .ok [fallbackAnalysis ["var-1"] "a.ts"] := by
  have h := c1_failed_batch_fallback .claude traceBatchFail vds1 (by decide) 0 "batch exploded"
    ["a.ts"] (by rfl) (by rfl)
  exact ⟨h.1, (h.2.2.2.1 "a.ts").2.2 "var-1" (by decide), by rfl⟩

/-! Cross-variation index lemmas. -/

theorem buildFileMap_eq_foldPairs (vds : List VariationDiffs) :
    buildFileMap vds = (pairsOf vds).foldl upStep [] := by
  unfold buildFileMap pairsOf
  have general : ∀ (l : List VariationDiffs) (m : FileMap),
      l.foldl (fun m vd => vd.diffs.foldl
        (fun m2 d => mapUpsert m2 d.filePath ⟨vd.variationId, some d⟩) m) m
      = (l.flatMap (fun vd => vd.diffs.map (fun d => (vd.variationId, d)))).foldl upStep m := by
    intro l
    induction l with
    | nil => intro m; rfl
    | cons vd l ih =>
      intro m
      simp only [List.foldl_cons, List.flatMap_cons, List.foldl_append]
      rw [ih]
      congr 1
      rw [List.foldl_map]
      rfl
  exact general vds []

theorem objGet_map_value (m : FileMap) (k : String) (e : VariationEntry) :
    objGet (m.map (fun p => if p.1 = k then (p.1, p.2 ++ [e]) else p)) k
      = (objGet m k).map (fun es => es ++ [e]) := by
  induction m with
  | nil => rfl
  | cons q m ih =>
    by_cases hq : q.1 = k
    · unfold objGet
      simp only [List.map_cons, if_pos hq, List.find?_cons]
      rw [show (decide (q.1 = k)) = true from by simp [hq]]
      simp
    · unfold objGet
      simp only [List.map_cons, if_neg hq, List.find?_cons]
      rw [show (decide (q.1 = k)) = false from by simp [hq]]
      exact ih

theorem objGet_map_other (m : FileMap) (k k' : String) (e : VariationEntry) (hk : k' ≠ k) :
    objGet (m.map (fun p => if p.1 = k then (p.1, p.2 ++ [e]) else p)) k'
      = objGet m k' := by
  induction m with
  | nil => rfl
  | cons q m ih =>
    unfold objGet
    simp only [List.map_cons, List.find?_cons]
    have hfst : (if q.1 = k then (q.1, q.2 ++ [e]) else q).1 = q.1 := by
      by_cases hq : q.1 = k <;> simp [hq]
    by_cases hq' : q.1 = k'
    · rw [show (decide ((if q.1 = k then (q.1, q.2 ++ [e]) else q).1 = k')) = true from by
        simp [hfst, hq', hk]]
      rw [show (decide (q.1 = k')) = true from by simp [hq']]
      have hqk : ¬ q.1 = k := fun h => hk (hq' ▸ h ▸ rfl)
      simp [if_neg hqk]
    · rw [show (decide ((if q.1 = k then (q.1, q.2 ++ [e]) else q).1 = k')) = false from by
        simp [hfst, hq']]
      rw [show (decide (q.1 = k')) = false from by simp [hq']]
      exact ih

theorem objGet_some_of_any (m : FileMap) (k : String)
    (h : m.any (fun p => p.1 = k) = true) : ∃ es, objGet m k = some es := by
  induction m with
  | nil => simp at h
  | cons q m ih =>
    unfold objGet
    rw [List.find?_cons]
    by_cases hq : q.1 = k
    · rw [show (decide (q.1 = k)) = true from by simp [hq]]
      exact ⟨q.2, rfl⟩
    · rw [show (decide (q.1 = k)) = false from by simp [hq]]
      apply ih
      simp only [List.any_cons, Bool.or_eq_true] at h
      rcases h with h | h
      · simp [hq] at h
      · exact h

theorem objGet_none_of_not_any (m : FileMap) (k : String)
    (h : ¬ m.any (fun p => p.1 = k) = true) : objGet m k = none := by
  unfold objGet
  rw [List.find?_eq_none.mpr]
  · rfl
  · intro p hp
    simp only [decide_eq_true_eq]
    intro hpk
    exact h (List.any_eq_true.mpr ⟨p, hp, by simp [hpk]⟩)

theorem objGet_mapUpsert_self (m : FileMap) (k : String) (e : VariationEntry) :
    objGet (mapUpsert m k e) k = some ((objGet m k).getD [] ++ [e]) := by
  unfold mapUpsert
  split
  · rename_i hany
    obtain ⟨es, hes⟩ := objGet_some_of_any m k hany
    rw [objGet_map_value, hes]
    rfl
  · rename_i hany
    have hfind : List.find? (fun p => decide (p.1 = k)) m = none := by
      rw [List.find?_eq_none]
      intro p hp
      simp only [decide_eq_true_eq]
      intro hpk
      exact hany (List.any_eq_true.mpr ⟨p, hp, by simp [hpk]⟩)
    unfold objGet
    rw [List.find?_append, hfind]
    simp [List.find?_cons]

theorem objGet_mapUpsert_other (m : FileMap) (k k' : String) (e : VariationEntry)
    (hk : k' ≠ k) : objGet (mapUpsert m k e) k' = objGet m k' := by
  unfold mapUpsert
  split
  · exact objGet_map_other m k k' e hk
  · unfold objGet
    rw [List.find?_append]
    cases hfind : List.find? (fun p => decide (p.1 = k')) m with
    | some p => simp
    | none =>
      simp only [Option.none_or]
      rw [List.find?_cons]
      rw [show (decide ((k, [e]).1 = k')) = false from by simp; exact fun h => hk h.symm]
      rfl

theorem objGet_foldl_upStep :
    ∀ (ps : List (String × FileDiff)) (m : FileMap) (p : String),
    objGet (ps.foldl upStep m) p =
      (match objGet m p with
       | some es => some (es ++ collectP ps p)
       | none => if collectP ps p = [] then none else some (collectP ps p)) := by
  intro ps
  induction ps with
  | nil =>
    intro m p
    simp only [List.foldl_nil, collectP, List.filterMap_nil]
    cases objGet m p <;> simp
  | cons pr ps ih =>
    intro m p
    simp only [List.foldl_cons]
    rw [ih]
    by_cases hpr : pr.2.filePath = p
    · have hself : objGet (upStep m pr) p
          = some ((objGet m p).getD [] ++ [⟨pr.1, some pr.2⟩]) := by
        unfold upStep
        rw [hpr]
        exact objGet_mapUpsert_self m p ⟨pr.1, some pr.2⟩
      rw [hself]
      have hcol : collectP (pr :: ps) p = ⟨pr.1, some pr.2⟩ :: collectP ps p := by
        unfold collectP
        rw [List.filterMap_cons]
        simp [hpr]
      rw [hcol]
      cases hm : objGet m p with
      | some es => simp [List.append_assoc]
      | none => simp
    · have hother : objGet (upStep m pr) p = objGet m p := by
        unfold upStep
        exact objGet_mapUpsert_other _ _ _ _ (fun h => hpr h.symm)
      rw [hother]
      have hcol : collectP (pr :: ps) p = collectP ps p := by
        unfold collectP
        rw [List.filterMap_cons]
        simp [hpr]
      rw [hcol]

theorem objGet_buildFileMap (vds : List VariationDiffs) (p : String) :
    objGet (buildFileMap vds) p =
      (if collectP (pairsOf vds) p = [] then none else some (collectP (pairsOf vds) p)) := by
  rw [buildFileMap_eq_foldPairs, objGet_foldl_upStep]
  rfl

theorem objGet_map_snd {α β : Type} (g : α → β) (m : List (String × α)) (k : String) :
    objGet (m.map (fun q => (q.1, g q.2))) k = (objGet m k).map g := by
  induction m with
  | nil => rfl
  | cons q m ih =>
    unfold objGet at ih ⊢
    simp only [List.map_cons, List.find?_cons]
    by_cases hq : q.1 = k
    · simp only [show decide (q.1 = k) = true from by simp [hq]]
      rfl
    · simp only [show decide (q.1 = k) = false from by simp [hq]]
      exact ih

theorem objGet_crossIndex (vds : List VariationDiffs) (p : String) :
    objGet (crossIndex vds) p = (objGet (buildFileMap vds) p).map
      (fun raw => sortEntries (fillEntries (vds.map VariationDiffs.variationId) raw)) := by
  unfold crossIndex
  exact objGet_map_snd
    (fun raw => sortEntries (fillEntries (vds.map VariationDiffs.variationId) raw))
    (buildFileMap vds) p

theorem mem_keys_iff_objGet (m : FileMap) (k : String) :
    k ∈ m.map Prod.fst ↔ ∃ es, objGet m k = some es := by
  constructor
  · intro h
    apply objGet_some_of_any
    rw [List.any_eq_true]
    obtain ⟨p, hp, hpe⟩ := List.mem_map.mp h
    exact ⟨p, hp, by simp [hpe]⟩
  · rintro ⟨es, hes⟩
    by_cases hany : m.any (fun p => p.1 = k) = true
    · rw [List.any_eq_true] at hany
      obtain ⟨p, hp, hpk⟩ := hany
      simp only [decide_eq_true_eq] at hpk
      exact List.mem_map.mpr ⟨p, hp, hpk⟩
    · rw [objGet_none_of_not_any m k hany] at hes
      cases hes

theorem collectP_ne_nil_iff (ps : List (String × FileDiff)) (p : String) :
    collectP ps p ≠ [] ↔ ∃ pr ∈ ps, pr.2.filePath = p := by
  unfold collectP
  constructor
  · intro h
    rcases List.exists_mem_of_ne_nil _ h with ⟨e, he⟩
    obtain ⟨pr, hpr, hpe⟩ := List.mem_filterMap.mp he
    refine ⟨pr, hpr, ?_⟩
    by_cases hc : pr.2.filePath = p
    · exact hc
    · rw [if_neg hc] at hpe
      cases hpe
  · rintro ⟨pr, hpr, hpe⟩
    intro hnil
    rw [List.filterMap_eq_nil] at hnil
    have := hnil pr hpr
    rw [if_pos hpe] at this
    cases this

theorem mem_pairsOf (vds : List VariationDiffs) (v : String) (d : FileDiff) :
    (v, d) ∈ pairsOf vds ↔ ∃ vd ∈ vds, vd.variationId = v ∧ d ∈ vd.diffs := by
  unfold pairsOf
  rw [List.mem_flatMap]
  constructor
  · rintro ⟨vd, hvd, hmem⟩
    obtain ⟨d', hd', he⟩ := List.mem_map.mp hmem
    cases he
    exact ⟨vd, hvd, rfl, hd'⟩
  · rintro ⟨vd, hvd, rfl, hd⟩
    exact ⟨vd, hvd, List.mem_map.mpr ⟨d, hd, rfl⟩⟩

theorem mem_allFilesOf (vds : List VariationDiffs) (p : String) :
    p ∈ allFilesOf vds ↔ ∃ vd ∈ vds, ∃ d ∈ vd.diffs, d.filePath = p := by
  unfold allFilesOf
  rw [(List.perm_insertionSort strLeP _).mem_iff, mem_keys_iff_objGet]
  constructor
  · rintro ⟨es, hes⟩
    rw [objGet_buildFileMap] at hes
    by_cases hc : collectP (pairsOf vds) p = []
    · rw [if_pos hc] at hes; cases hes
    · obtain ⟨pr, hpr, hpe⟩ := (collectP_ne_nil_iff _ _).mp hc
      obtain ⟨vd, hvd, hid, hd⟩ := (mem_pairsOf vds pr.1 pr.2).mp hpr
      exact ⟨vd, hvd, pr.2, hd, hpe⟩
  · rintro ⟨vd, hvd, d, hd, hdp⟩
    rw [objGet_buildFileMap]
    have hne : collectP (pairsOf vds) p ≠ [] :=
      (collectP_ne_nil_iff _ _).mpr
        ⟨(vd.variationId, d), (mem_pairsOf vds vd.variationId d).mpr ⟨vd, hvd, rfl, hd⟩, hdp⟩
    rw [if_neg hne]
    exact ⟨_, rfl⟩

theorem countP_collectP (ps : List (String × FileDiff)) (p v : String) :
    (collectP ps p).countP (fun e => e.variationId = v)
      = ps.countP (fun pr => pr.1 = v ∧ pr.2.filePath = p) := by
  induction ps with
  | nil => rfl
  | cons pr ps ih =>
    unfold collectP
    rw [List.filterMap_cons]
    by_cases hpr : pr.2.filePath = p
    · rw [if_pos hpr]
      rw [List.countP_cons, List.countP_cons]
      unfold collectP at ih
      rw [ih]
      congr 1
      by_cases hv : pr.1 = v <;> simp [hv, hpr]
    · rw [if_neg hpr]
      unfold collectP at ih
      rw [ih, List.countP_cons]
      simp [hpr]

theorem countP_le_one_of_nodup_map {α : Type} (f : α → String) (p : String) :
    ∀ (ds : List α), (ds.map f).Nodup → ds.countP (fun d => f d = p) ≤ 1 := by
  intro ds
  induction ds with
  | nil => intro _; simp
  | cons d ds ih =>
    intro hnd
    simp only [List.map_cons, List.nodup_cons] at hnd
    rw [List.countP_cons]
    by_cases hd : f d = p
    · have hzero : ds.countP (fun d => f d = p) = 0 := by
        rw [List.countP_eq_zero]
        intro a ha
        simp only [decide_eq_true_eq]
        intro hap
        exact hnd.1 (List.mem_map.mpr ⟨a, ha, hap.trans hd.symm⟩)
      simp [hzero, hd]
    · simp [hd]
      exact ih hnd.2

theorem countP_pairsOf_le_one (vds : List VariationDiffs) (v p : String)
    (hids : (vds.map VariationDiffs.variationId).Nodup)
    (hpaths : ∀ vd ∈ vds, (vd.diffs.map FileDiff.filePath).Nodup) :
    (pairsOf vds).countP (fun pr => pr.1 = v ∧ pr.2.filePath = p) ≤ 1 := by
  induction vds with
  | nil => simp [pairsOf]
  | cons vd vds ih =>
    unfold pairsOf
    rw [List.flatMap_cons, List.countP_append]
    simp only [List.map_cons, List.nodup_cons] at hids
    have hpaths' : ∀ u ∈ vds, (u.diffs.map FileDiff.filePath).Nodup :=
      fun u hu => hpaths u (List.mem_cons_of_mem _ hu)
    have ih' := ih hids.2 hpaths'
    unfold pairsOf at ih'
    by_cases hv : vd.variationId = v
    · have htail : (vds.flatMap (fun u => u.diffs.map (fun d => (u.variationId, d)))).countP
          (fun pr => pr.1 = v ∧ pr.2.filePath = p) = 0 := by
        rw [List.countP_eq_zero]
        rintro ⟨pv, pd⟩ hpr
        simp only [decide_eq_true_eq]
        rintro ⟨rfl, -⟩
        obtain ⟨u, hu, hid, -⟩ := (mem_pairsOf vds pv pd).mp hpr
        exact hids.1 (List.mem_map.mpr ⟨u, hu, hid.trans (hv ▸ rfl)⟩)
      rw [htail]
      have hhead : (vd.diffs.map (fun d => (vd.variationId, d))).countP
          (fun pr => pr.1 = v ∧ pr.2.filePath = p) ≤ 1 := by
        rw [List.countP_map]
        have hmono : vd.diffs.countP
            ((fun pr => decide (pr.1 = v ∧ pr.2.filePath = p)) ∘
              (fun d => (vd.variationId, d))) ≤
            vd.diffs.countP (fun d => d.filePath = p) := by
          apply List.countP_mono_left
          intro d _ hd
          simp only [Function.comp_apply, decide_eq_true_eq] at hd
          simp [hd.2]
        exact hmono.trans (countP_le_one_of_nodup_map FileDiff.filePath p vd.diffs
          (hpaths vd (List.mem_cons_self vd vds)))
      omega
    · have hhead : (vd.diffs.map (fun d => (vd.variationId, d))).countP
          (fun pr => pr.1 = v ∧ pr.2.filePath = p) = 0 := by
        rw [List.countP_eq_zero]
        intro pr hpr
        obtain ⟨d, -, rfl⟩ := List.mem_map.mp hpr
        simp only [decide_eq_true_eq]
        rintro ⟨h1, -⟩
        exact hv h1
      rw [hhead]
      simpa using ih'

theorem countP_filter_eq_of_nodup (vars : List String) (P : String → Bool) (v : String)
    (hnd : vars.Nodup) :
    (vars.filter P).countP (fun x => x = v) = if v ∈ vars ∧ P v = true then 1 else 0 := by
  induction vars with
  | nil => simp
  | cons a vars ih =>
    simp only [List.nodup_cons] at hnd
    rw [List.filter_cons]
    have ih' := ih hnd.2
    by_cases ha : a = v
    · subst ha
      have htail : (vars.filter P).countP (fun x => x = a) = 0 := by
        rw [List.countP_eq_zero]
        intro x hx
        simp only [decide_eq_true_eq]
        intro hxa
        exact hnd.1 (hxa ▸ (List.mem_filter.mp hx).1)
      by_cases hP : P a = true
      · simp [hP, List.countP_cons, htail]
      · simp [hP, htail]
    · have hvmem : (v ∈ a :: vars ∧ P v = true) ↔ (v ∈ vars ∧ P v = true) := by
        constructor
        · rintro ⟨h1, h2⟩
          rcases List.mem_cons.mp h1 with h | h
          · exact absurd h.symm ha
          · exact ⟨h, h2⟩
        · rintro ⟨h1, h2⟩
          exact ⟨List.mem_cons_of_mem a h1, h2⟩
      by_cases hP : P a = true
      · rw [if_pos hP, List.countP_cons, ih']
        rw [show (decide (a = v)) = false from by simp [ha]]
        simp only [Bool.false_eq_true, if_false, Nat.add_zero]
        by_cases hv : v ∈ vars ∧ P v = true
        · rw [if_pos hv, if_pos (hvmem.mpr hv)]
        · rw [if_neg hv, if_neg (fun hx => hv (hvmem.mp hx))]
      · rw [if_neg hP, ih']
        by_cases hv : v ∈ vars ∧ P v = true
        · rw [if_pos hv, if_pos (hvmem.mpr hv)]
        · rw [if_neg hv, if_neg (fun hx => hv (hvmem.mp hx))]

theorem any_iff_countP_ne (l : List VariationEntry) (v : String) :
    l.any (fun e => e.variationId = v) = true ↔
      l.countP (fun e => e.variationId = v) ≠ 0 := by
  rw [List.any_eq_true, Ne, List.countP_eq_zero]
  constructor
  · rintro ⟨e, he, hev⟩ hall
    exact hall e he hev
  · intro h
    by_contra hno
    push_neg at hno
    exact h (fun e he => by
      intro hev
      exact hno e he hev)

theorem countP_fillEntries (vars : List String) (raw : List VariationEntry) (v : String)
    (hnd : vars.Nodup) :
    (fillEntries vars raw).countP (fun e => e.variationId = v)
      = raw.countP (fun e => e.variationId = v)
        + (if v ∈ vars ∧ raw.countP (fun e => e.variationId = v) = 0 then 1 else 0) := by
  unfold fillEntries
  rw [List.countP_append, List.countP_map]
  have hcomp : ((fun e => decide (e.variationId = v)) ∘ fun x => (⟨x, none⟩ : VariationEntry))
      = fun x => decide (x = v) := by
    funext x
    rfl
  rw [hcomp, countP_filter_eq_of_nodup vars _ v hnd]
  congr 1
  have hPv : (decide (¬ raw.any (fun e => e.variationId = v) = true) = true)
      ↔ raw.countP (fun e => e.variationId = v) = 0 := by
    rw [decide_eq_true_eq, any_iff_countP_ne]
    exact not_not
  by_cases hc : v ∈ vars ∧ raw.countP (fun e => e.variationId = v) = 0
  · rw [if_pos hc, if_pos ⟨hc.1, hPv.mpr hc.2⟩]
  · rw [if_neg hc, if_neg (fun hx => hc ⟨hx.1, hPv.mp hx.2⟩)]

theorem none_not_mem_collectP (ps : List (String × FileDiff)) (p v : String) :
    (⟨v, none⟩ : VariationEntry) ∉ collectP ps p := by
  intro h
  obtain ⟨pr, hpr, hpe⟩ := List.mem_filterMap.mp h
  by_cases hc : pr.2.filePath = p
  · rw [if_pos hc] at hpe
    simp at hpe
  · rw [if_neg hc] at hpe
    cases hpe

theorem mem_none_fillEntries (vars : List String) (raw : List VariationEntry) (v : String) :
    (⟨v, none⟩ : VariationEntry) ∈ fillEntries vars raw ↔
      ((⟨v, none⟩ : VariationEntry) ∈ raw ∨
        (v ∈ vars ∧ raw.countP (fun e => e.variationId = v) = 0)) := by
  unfold fillEntries
  rw [List.mem_append]
  apply or_congr Iff.rfl
  rw [List.mem_map]
  constructor
  · rintro ⟨x, hx, he⟩
    have hxv : x = v := congrArg VariationEntry.variationId he
    subst hxv
    obtain ⟨hmem, hP⟩ := List.mem_filter.mp hx
    refine ⟨hmem, ?_⟩
    rw [decide_eq_true_eq, any_iff_countP_ne] at hP
    exact not_not.mp hP
  · rintro ⟨hmem, hcnt⟩
    refine ⟨v, List.mem_filter.mpr ⟨hmem, ?_⟩, rfl⟩
    rw [decide_eq_true_eq, any_iff_countP_ne]
    exact not_not.mpr hcnt

theorem countP_ne_iff_touched (vds : List VariationDiffs) (p v : String) :
    (collectP (pairsOf vds) p).countP (fun e => e.variationId = v) ≠ 0 ↔
      ∃ vd ∈ vds, vd.variationId = v ∧ ∃ d ∈ vd.diffs, d.filePath = p := by
  rw [countP_collectP]
  constructor
  · intro h
    obtain ⟨pr, hpr, hcond⟩ := List.countP_pos_iff.mp (Nat.pos_of_ne_zero h)
    simp only [decide_eq_true_eq] at hcond
    rcases pr with ⟨pv, pd⟩
    obtain ⟨u, hu, hid, hd⟩ := (mem_pairsOf vds pv pd).mp hpr
    exact ⟨u, hu, hid.trans hcond.1, pd, hd, hcond.2⟩
  · rintro ⟨vd, hvd, hid, d, hd, hdp⟩
    intro h0
    rw [List.countP_eq_zero] at h0
    exact h0 (vd.variationId, d) ((mem_pairsOf vds vd.variationId d).mpr ⟨vd, hvd, rfl, hd⟩)
      (by simp [hid, hdp])

theorem countP_collect_zero_of_not_mem (vds : List VariationDiffs) (p v : String)
    (hv : v ∉ vds.map VariationDiffs.variationId) :
    (collectP (pairsOf vds) p).countP (fun e => e.variationId = v) = 0 := by
  rw [countP_collectP, List.countP_eq_zero]
  rintro ⟨pv, pd⟩ hpr
  simp only [decide_eq_true_eq]
  rintro ⟨rfl, -⟩
  obtain ⟨u, hu, hid, -⟩ := (mem_pairsOf vds pv pd).mp hpr
  exact hv (List.mem_map.mpr ⟨u, hu, hid⟩)

/-- C2 (corrected): for inputs whose variation identifiers are pairwise
distinct and whose per-variation diff lists hold each file path at most
once — which the judge's callers guarantee — the cross-variation index
maps each touched file path to an entry list in which every input
variation appears exactly once (with a null diff exactly for the
variations that did not touch that file), sorted by variation
identifier, and the overall file-path list is sorted lexicographically,
duplicate-free, and holds exactly the touched paths.  Without those
input conditions the uniqueness fails (see the counterexample). -/
theorem c2_crossIndex_spec (vds : List VariationDiffs)
    (hids : (vds.map VariationDiffs.variationId).Nodup)
    (hpaths : ∀ vd ∈ vds, (vd.diffs.map FileDiff.filePath).Nodup) :
    (allFilesOf vds).Sorted strLeP ∧
    (allFilesOf vds).Nodup ∧
    (∀ p, p ∈ allFilesOf vds ↔ ∃ vd ∈ vds, ∃ d ∈ vd.diffs, d.filePath = p) ∧
    (∀ p, (∃ es, objGet (crossIndex vds) p = some es) ↔ p ∈ allFilesOf vds) ∧
    (∀ p es, objGet (crossIndex vds) p = some es →
      es.Sorted entryLe ∧
      (∀ v, es.countP (fun e => e.variationId = v)
          = if v ∈ vds.map VariationDiffs.variationId then 1 else 0) ∧
      (∀ v, (⟨v, none⟩ : VariationEntry) ∈ es ↔
          (v ∈ vds.map VariationDiffs.variationId ∧
            ¬ ∃ vd ∈ vds, vd.variationId = v ∧ ∃ d ∈ vd.diffs, d.filePath = p))) := by
  refine ⟨allFilesOf_sorted vds, allFilesOf_nodup vds, mem_allFilesOf vds, ?_, ?_⟩
  · intro p
    rw [objGet_crossIndex]
    constructor
    · rintro ⟨es, hes⟩
      cases hraw : objGet (buildFileMap vds) p with
      | none => rw [hraw] at hes; cases hes
      | some raw =>
        have hmem : p ∈ (buildFileMap vds).map Prod.fst :=
          (mem_keys_iff_objGet _ _).mpr ⟨raw, hraw⟩
        unfold allFilesOf
        exact (List.perm_insertionSort strLeP _).mem_iff.mpr hmem
    · intro hp
      have hk : p ∈ (buildFileMap vds).map Prod.fst := by
        unfold allFilesOf at hp
        exact (List.perm_insertionSort strLeP _).mem_iff.mp hp
      obtain ⟨raw, hraw⟩ := (mem_keys_iff_objGet _ _).mp hk
      exact ⟨_, by rw [hraw]; rfl⟩
  · intro p es hes
    rw [objGet_crossIndex] at hes
    cases hraw : objGet (buildFileMap vds) p with
    | none => rw [hraw] at hes; cases hes
    | some raw =>
      rw [hraw] at hes
      obtain rfl : sortEntries (fillEntries (vds.map VariationDiffs.variationId) raw) = es :=
        Option.some.inj hes
      have hrawval : raw = collectP (pairsOf vds) p := by
        rw [objGet_buildFileMap] at hraw
        by_cases hc : collectP (pairsOf vds) p = []
        · rw [if_pos hc] at hraw; cases hraw
        · rw [if_neg hc] at hraw; exact (Option.some.inj hraw).symm
      subst hrawval
      refine ⟨List.sorted_insertionSort entryLe _, ?_, ?_⟩
      · intro v
        unfold sortEntries
        rw [(List.perm_insertionSort entryLe _).countP_eq]
        rw [countP_fillEntries _ _ _ hids]
        by_cases hv : v ∈ vds.map VariationDiffs.variationId
        · rw [if_pos hv]
          have hle := countP_pairsOf_le_one vds v p hids hpaths
          rw [← countP_collectP] at hle
          by_cases h0 : (collectP (pairsOf vds) p).countP (fun e => e.variationId = v) = 0
          · rw [h0, if_pos ⟨hv, rfl⟩]
          · have h1 : (collectP (pairsOf vds) p).countP (fun e => e.variationId = v) = 1 := by
              omega
            rw [h1, if_neg (fun hx => Nat.one_ne_zero hx.2)]
        · rw [if_neg hv, countP_collect_zero_of_not_mem vds p v hv,
            if_neg (fun hx => hv hx.1)]
      · intro v
        unfold sortEntries
        rw [(List.perm_insertionSort entryLe _).mem_iff, mem_none_fillEntries]
        constructor
        · rintro (h | ⟨hmem, hcnt⟩)
          · exact absurd h (none_not_mem_collectP _ _ _)
          · exact ⟨hmem, fun ht => (countP_ne_iff_touched vds p v).mpr ht hcnt⟩
        · rintro ⟨hmem, hnt⟩
          right
          refine ⟨hmem, ?_⟩
          by_contra hne
          exact hnt ((countP_ne_iff_touched vds p v).mp hne)

set_option maxRecDepth 100000 in
/-- C2 witness: the single-variation single-file input yields the sorted
singleton index. -/
theorem c2_witness :
    allFilesOf vds1 = ["a.ts"] ∧
    objGet (crossIndex vds1) "a.ts"
      = some [⟨"var-1", some ⟨"a.ts", 'M', "p", "", ""⟩⟩] ∧
    (allFilesOf vds1).Sorted strLeP := by
  have h := c2_crossIndex_spec vds1 (by decide) (by decide)
  exact ⟨by rfl, by rfl, h.1⟩

set_option maxRecDepth 100000 in
/-- C2 counterexample: a variation whose diff list mentions the same
path twice makes that variation appear twice in the path's entry list,
refuting the claim for arbitrary inputs. -/
theorem c2_counterexample :
    vdsDup.map VariationDiffs.variationId = ["v1"] ∧
    objGet (crossIndex vdsDup) "p.ts"
      = some [⟨"v1", some dDup⟩, ⟨"v1", some dDup⟩] ∧
    ([(⟨"v1", some dDup⟩ : VariationEntry), ⟨"v1", some dDup⟩].countP
        (fun e => e.variationId = "v1")) = 2 := by
  exact ⟨rfl, by rfl, by decide⟩

/-! Progress-event lemmas. -/

theorem lexLe_refl : ∀ l : List Char, lexLe l l = true := by
  intro l
  induction l with
  | nil => rfl
  | cons a l ih => simp [lexLe, ih]

theorem strLeP_refl (s : String) : strLeP s s := lexLe_refl s.data

theorem head_le_getLast (l : List String) (hsort : List.Pairwise strLeP l) (x y : String)
    (hx : l.head? = some x) (hy : l.getLast? = some y) : strLeP x y := by
  cases l with
  | nil => cases hx
  | cons a t =>
    have hax : x = a := by cases hx; rfl
    subst hax
    cases t with
    | nil =>
      cases hy
      exact strLeP_refl _
    | cons b t2 =>
      rw [List.getLast?_cons_cons] at hy
      have hne : (b :: t2) ≠ [] := by simp
      have hymem : y ∈ b :: t2 := by
        rw [List.getLast?_eq_getLast _ hne] at hy
        cases hy
        exact List.getLast_mem hne
      exact (List.pairwise_cons.mp hsort).1 y hymem

theorem analyzeLoop_events_phase (trace : Nat → String → String → CallResult)
    (fm : String) (vds : List VariationDiffs) (vars : List String) (tf : Nat) :
    ∀ (bs : List (List String)) (i : Nat) (acc : List FileAnalysis),
    ∀ ev ∈ (analyzeLoop trace fm vds vars tf i acc bs).1,
      ev.phase = Phase.analyzing ∧ ∀ f, ev.currentFile = some f → f ∈ bs.flatten := by
  intro bs
  induction bs with
  | nil => intro i acc ev hev; simp [analyzeLoop] at hev
  | cons b bs ih =>
    intro i acc ev hev
    simp only [analyzeLoop] at hev
    cases hseg : batchOutcome (trace i (batchPrompt vds b) fm) b with
    | fatal m =>
      rw [hseg] at hev
      simp only [List.mem_singleton] at hev
      subst hev
      exact ⟨rfl, fun f hf => List.mem_append_left _
        (List.mem_of_mem_head? (Option.mem_def.mpr hf))⟩
    | fallback =>
      rw [hseg] at hev
      simp only [List.mem_cons] at hev
      rcases hev with rfl | hev
      · exact ⟨rfl, fun f hf => List.mem_append_left _
          (List.mem_of_mem_head? (Option.mem_def.mpr hf))⟩
      · obtain ⟨h1, h2⟩ := ih (i+1) _ ev hev
        exact ⟨h1, fun f hf => List.mem_append_right _ (h2 f hf)⟩
    | ok rs =>
      rw [hseg] at hev
      simp only [List.mem_cons] at hev
      rcases hev with rfl | rfl | hev
      · exact ⟨rfl, fun f hf => List.mem_append_left _
          (List.mem_of_mem_head? (Option.mem_def.mpr hf))⟩
      · refine ⟨rfl, fun f hf => List.mem_append_left _ ?_⟩
        have hne : b ≠ [] := by
          intro he
          subst he
          cases hf
        rw [List.getLast?_eq_getLast _ hne] at hf
        cases hf
        exact List.getLast_mem hne
      · obtain ⟨h1, h2⟩ := ih (i+1) _ ev hev
        exact ⟨h1, fun f hf => List.mem_append_right _ (h2 f hf)⟩

theorem analyzeLoop_files_sorted (trace : Nat → String → String → CallResult)
    (fm : String) (vds : List VariationDiffs) (vars : List String) (tf : Nat) :
    ∀ (bs : List (List String)) (i : Nat) (acc : List FileAnalysis),
    List.Pairwise strLeP bs.flatten →
    List.Pairwise strLeP
      (((analyzeLoop trace fm vds vars tf i acc bs).1).filterMap
        (fun e => e.currentFile)) := by
  intro bs
  induction bs with
  | nil => intro i acc _; simp [analyzeLoop]
  | cons b bs ih =>
    intro i acc hsort
    rw [List.flatten_cons] at hsort
    obtain ⟨hb, hrest, hcross⟩ := List.pairwise_append.mp hsort
    simp only [analyzeLoop]
    cases hseg : batchOutcome (trace i (batchPrompt vds b) fm) b with
    | fatal m =>
      cases hh : b.head? with
      | none => simp [List.filterMap_cons, mkProgress, hh]
      | some f => simp [List.filterMap_cons, mkProgress, hh]
    | fallback =>
      rw [List.filterMap_cons]
      have hcf : (mkProgress Phase.analyzing b.head? acc tf none).currentFile = b.head? := rfl
      rw [hcf]
      cases hh : b.head? with
      | none => exact ih (i+1) _ hrest
      | some f =>
        rw [List.pairwise_cons]
        refine ⟨?_, ih (i+1) _ hrest⟩
        intro y hy
        obtain ⟨ev, hev, hevf⟩ := List.mem_filterMap.mp hy
        have hmem := (analyzeLoop_events_phase trace fm vds vars tf bs (i+1) _ ev hev).2 y hevf
        exact hcross f (List.mem_of_mem_head? (Option.mem_def.mpr hh)) y hmem
    | ok rs =>
      rw [List.filterMap_cons]
      have hcf : (mkProgress Phase.analyzing b.head? acc tf none).currentFile = b.head? := rfl
      rw [hcf]
      cases hh : b.head? with
      | none =>
        have hbnil : b = [] := List.head?_eq_none_iff.mp hh
        subst hbnil
        rw [List.filterMap_cons]
        have hcf2 : (mkProgress Phase.analyzing ([] : List String).getLast?
            (acc ++ rs) tf none).currentFile = ([] : List String).getLast? := rfl
        rw [hcf2]
        exact ih (i+1) _ hrest
      | some f1 =>
        have hbne : b ≠ [] := by
          intro he
          subst he
          cases hh
        rw [List.filterMap_cons]
        have hcf2 : (mkProgress Phase.analyzing b.getLast? (acc ++ rs) tf none).currentFile
            = b.getLast? := rfl
        rw [hcf2]
        have hl : b.getLast? = some (b.getLast hbne) := List.getLast?_eq_getLast _ hbne
        rw [hl]
        rw [List.pairwise_cons, List.pairwise_cons]
        have hf1mem : f1 ∈ b := List.mem_of_mem_head? (Option.mem_def.mpr hh)
        have hlmem : b.getLast hbne ∈ b := List.getLast_mem hbne
        refine ⟨?_, ?_, ih (i+1) _ hrest⟩
        · intro y hy
          rcases List.mem_cons.mp hy with heq | hy
          · subst heq
            exact head_le_getLast b hb f1 _ hh hl
          · obtain ⟨ev, hev, hevf⟩ := List.mem_filterMap.mp hy
            have hmem := (analyzeLoop_events_phase trace fm vds vars tf bs (i+1) _ ev hev).2 y hevf
            exact hcross f1 hf1mem y hmem
        · intro y hy
          obtain ⟨ev, hev, hevf⟩ := List.mem_filterMap.mp hy
          have hmem := (analyzeLoop_events_phase trace fm vds vars tf bs (i+1) _ ev hev).2 y hevf
          exact hcross (b.getLast hbne) hlmem y hmem

/-- C5 (corrected): in every run the progress snapshots are analyzing
events whose `currentFile` values appear in nondecreasing file-path
order, then exactly one synthesizing event, then — on success — exactly
two complete events (the source emits `emitProgress('complete')` and
then a second hand-built snapshot), only the final one carrying the
populated result; a run that fails emits no terminal event at all — the
error propagates to the caller instead. -/
theorem c5_progress_sequence (cli : AgentCLI) (trace : Nat → String → String → CallResult)
    (vds : List VariationDiffs) (evs : List JudgeProgress)
    (out : Except String JudgeResult)
    (hrun : runMultiAgentJudge cli trace vds = (evs, out)) :
    (∀ res, out = .ok res →
      ∃ levs sEv cEv1 cEv2,
        evs = levs ++ [sEv, cEv1, cEv2] ∧
        (∀ ev ∈ levs, ev.phase = Phase.analyzing) ∧
        List.Pairwise strLeP (levs.filterMap (fun e => e.currentFile)) ∧
        sEv.phase = Phase.synthesizing ∧
        cEv1.phase = Phase.complete ∧ cEv1.result = none ∧
        cEv2.phase = Phase.complete ∧ cEv2.result = some res ∧
        (evs.filter (fun e => e.phase = Phase.synthesizing)).length = 1 ∧
        (evs.filter (fun e => e.phase = Phase.complete)).length = 2 ∧
        evs.getLast? = some cEv2) ∧
    (∀ m, out = .error m →
      (evs.filter (fun e => e.phase = Phase.complete)).length = 0 ∧
      (evs.filter (fun e => e.phase = Phase.synthesizing)).length ≤ 1) := by
  have hphases := analyzeLoop_events_phase trace (MODEL_CONFIGS cli).fast vds
    (vds.map VariationDiffs.variationId) (allFilesOf vds).length
    (chunk5 (allFilesOf vds)) 0 []
  have hsorted := analyzeLoop_files_sorted trace (MODEL_CONFIGS cli).fast vds
    (vds.map VariationDiffs.variationId) (allFilesOf vds).length
    (chunk5 (allFilesOf vds)) 0 []
    (by rw [chunk5_flatten]; exact allFilesOf_sorted vds)
  have hloopnil : ((analyzeLoop trace (MODEL_CONFIGS cli).fast vds
      (vds.map VariationDiffs.variationId) (allFilesOf vds).length 0 []
      (chunk5 (allFilesOf vds))).1.filter (fun e => e.phase = Phase.synthesizing)) = []
      ∧ ((analyzeLoop trace (MODEL_CONFIGS cli).fast vds
      (vds.map VariationDiffs.variationId) (allFilesOf vds).length 0 []
      (chunk5 (allFilesOf vds))).1.filter (fun e => e.phase = Phase.complete)) = [] := by
    constructor <;>
      (rw [List.filter_eq_nil_iff]
       intro ev hev
       rw [(hphases ev hev).1]
       decide)
  unfold runMultiAgentJudge at hrun
  dsimp only at hrun
  split at hrun
  · cases hrun
    refine ⟨(fun res h => nomatch h), fun m _ => ?_⟩
    rw [hloopnil.1, hloopnil.2]
    exact ⟨rfl, by simp⟩
  · split at hrun
    · cases hrun
      refine ⟨(fun res h => nomatch h), fun m _ => ?_⟩
      rw [List.filter_append, List.filter_append, hloopnil.1, hloopnil.2]
      exact ⟨by rfl, by simp [mkProgress]⟩
    · split at hrun
      · cases hrun
        refine ⟨(fun res h => nomatch h), fun m _ => ?_⟩
        rw [List.filter_append, List.filter_append, hloopnil.1, hloopnil.2]
        exact ⟨by rfl, by simp [mkProgress]⟩
      · split at hrun
        · cases hrun
          refine ⟨(fun res h => nomatch h), fun m _ => ?_⟩
          rw [List.filter_append, List.filter_append, hloopnil.1, hloopnil.2]
          exact ⟨by rfl, by simp [mkProgress]⟩
        · cases hrun
          refine ⟨fun res h => ?_, (fun m h => nomatch h)⟩
          obtain rfl : _ = res := Except.ok.inj h
          rename_i fileAnalyses hloop r response hresp j hparse x sr hdec
          refine ⟨_, _, _, _, rfl, fun ev hev => (hphases ev hev).1, hsorted,
            rfl, rfl, rfl, rfl, rfl, ?_, ?_, ?_⟩
          · rw [List.filter_append, hloopnil.1]
            rfl
          · rw [List.filter_append, hloopnil.2]
            rfl
          · rw [show ∀ (l : List JudgeProgress) (a b c : JudgeProgress),
                l ++ [a, b, c] = (l ++ [a, b]) ++ [c] from by intros; simp,
              List.getLast?_concat]

set_option maxRecDepth 100000 in
/-- C5 witness: a full successful run shows the amended shape — two
complete events, the final snapshot carrying the result. -/
theorem c5_witness :
    ((runMultiAgentJudge .claude traceGood vds1).1.filter
        (fun e => e.phase = Phase.complete)).length = 2 ∧
    ∃ cEv2, (runMultiAgentJudge .claude traceGood vds1).1.getLast? = some cEv2 ∧
      cEv2.result = some res1 := by
  have h := (c5_progress_sequence .claude traceGood vds1
      (runMultiAgentJudge .claude traceGood vds1).1
      (runMultiAgentJudge .claude traceGood vds1).2 (by rfl)).1 res1 (by rfl)
  obtain ⟨levs, sEv, cEv1, cEv2, heq, hph, hpw, hs, hc1p, hc1r, hc2p, hc2r,
    hsyncnt, hcompcnt, hlast⟩ := h
  exact ⟨hcompcnt, cEv2, hlast, hc2r⟩

set_option maxRecDepth 100000 in
/-- C5 counterexample: a successful run delivers two terminal
(`complete`) snapshots, not exactly one — `emitProgress('complete')`
followed by the hand-built result snapshot. -/
theorem c5_counterexample :
    ((runMultiAgentJudge .claude traceGood vds1).1.filter
        (fun e => e.phase = Phase.complete)).length = 2 ∧
    (runMultiAgentJudge .claude traceGood vds1).2 = .ok res1 ∧
    ((runMultiAgentJudge .claude traceGood vds1).1.filter
        (fun e => e.phase = Phase.error)).length = 0 := by
  refine ⟨by rfl, by rfl, by rfl⟩
